/-
Verification of the patent-scoring pipeline (ingestion → fingerprint dedup →
queue → classification → sync) against its natural-language specification.

The Python sources are shallowly embedded as executable Lean definitions:
  * `api/utils/hash.py`            → `compute_abstract_sha1`
  * `api/ingest_service.py`        → `compute_sha1`, `extractRecordFromXml`,
                                     `parseCsvRow`, `ingestRecords`
  * `api/scoring_service.py`       → `keywordScore` (via `scorer.py`),
                                     `scorePatent`, `processQueueBatch`,
                                     `processAllPending`
  * `api/main.py`                  → `skipQueueItems`, `syncToAirtable`
  * `api/services/matcher.py`      → `wildcardSearch` (the regex actually
                                     compiled by `wildcard_to_regex`)
The database is modelled as two lists of rows (scores, queue) with the same
composite key (patent_id, abstract_sha1) the ORM declares; SQL queries become
list filters in table order.  The external tracking store is a parameter
(`extExists`, `extCreateOk`).  SHA-1 is implemented in full so digests are
kernel-computable.
-/
import Mathlib

set_option maxRecDepth 100000

namespace PatentScoring

/-! ### Python string helpers

Implemented on the character list so every definition reduces in the
kernel (core's position-based `String` loops do not). -/

/-- Python `str.lower()` (ASCII case folding; all pipeline inputs are
ASCII). -/
def pyLower (s : String) : String :=
  String.mk (s.data.map Char.toLower)

/-- Python `str.strip()`: drop whitespace from both ends. -/
def pyStrip (s : String) : String :=
  String.mk
    (((s.data.dropWhile Char.isWhitespace).reverse.dropWhile
      Char.isWhitespace).reverse)

def pySplitAux : List Char → List Char → List String
  | [], acc => if acc.isEmpty then [] else [String.mk acc.reverse]
  | c :: rest, acc =>
    if c.isWhitespace then
      if acc.isEmpty then pySplitAux rest []
      else String.mk acc.reverse :: pySplitAux rest []
    else pySplitAux rest (c :: acc)

/-- Python `str.split()` with no argument: the maximal non-whitespace
runs. -/
def pySplit (s : String) : List String :=
  pySplitAux s.data []

/-- Python `" ".join(xs)`. -/
def pyJoin (sep : String) (xs : List String) : String :=
  String.intercalate sep xs

/-- Count of non-overlapping occurrences of `n` in `h`, scanning left to
right — Python `h.count(n)` for a non-empty needle. -/
def countOccAux (n : List Char) : Nat → List Char → Nat
  | _, [] => 0
  | 0, _ :: _ => 0
  | fuel + 1, c :: t =>
    if n.isPrefixOf (c :: t) then
      1 + countOccAux n fuel ((c :: t).drop (max n.length 1))
    else countOccAux n fuel t

/-- Python `h.count(n)` (an empty needle counts `len(h) + 1` occurrences). -/
def pyCount (n h : String) : Nat :=
  match n.data with
  | [] => h.data.length + 1
  | _ => countOccAux n.data h.data.length h.data

/-- Python `n in h` substring test. -/
def pyContains (n h : String) : Bool :=
  match n.data with
  | [] => true
  | _ => countOccAux n.data h.data.length h.data ≠ 0

/-! ### SHA-1 (`hashlib.sha1`), on byte lists, with Nat arithmetic mod 2^32 -/

def m32 : Nat := 4294967296

def rotl32 (n x : Nat) : Nat :=
  ((x <<< n) % m32) ||| (x >>> (32 - n))

/-- Split a byte list into 64-byte blocks. -/
def toBlocksAux : Nat → List Nat → List (List Nat)
  | _, [] => []
  | 0, _ :: _ => []
  | fuel + 1, b :: bs => ((b :: bs).take 64) :: toBlocksAux fuel ((b :: bs).drop 64)

def toBlocks (bs : List Nat) : List (List Nat) :=
  toBlocksAux bs.length bs

/-- Big-endian 32-bit words of one 64-byte block. -/
def blockWords (b : List Nat) : List Nat :=
  (List.range 16).map fun i =>
    (b.getD (4*i) 0) <<< 24 ||| (b.getD (4*i+1) 0) <<< 16 |||
    (b.getD (4*i+2) 0) <<< 8 ||| (b.getD (4*i+3) 0)

/-- Message-schedule extension of the 16 block words to 80 words. -/
def extendWords (w : Array Nat) : Array Nat :=
  (List.range 64).foldl (fun acc j =>
    let i := j + 16
    acc.push (rotl32 1 (acc.getD (i-3) 0 ^^^ acc.getD (i-8) 0 ^^^
                        acc.getD (i-14) 0 ^^^ acc.getD (i-16) 0))) w

/-- One SHA-1 round: `i` is the round index, state is `(a, b, c, d, e)`. -/
def sha1Round (w : Array Nat) (st : Nat × Nat × Nat × Nat × Nat) (i : Nat) :
    Nat × Nat × Nat × Nat × Nat :=
  let (a, b, c, d, e) := st
  let f :=
    if i < 20 then (b &&& c) ||| ((m32 - 1 - b) &&& d)
    else if i < 40 then b ^^^ c ^^^ d
    else if i < 60 then (b &&& c) ||| (b &&& d) ||| (c &&& d)
    else b ^^^ c ^^^ d
  let k :=
    if i < 20 then 0x5A827999
    else if i < 40 then 0x6ED9EBA1
    else if i < 60 then 0x8F1BBCDC
    else 0xCA62C1D6
  let tmp := (rotl32 5 a + f + e + k + w.getD i 0) % m32
  (tmp, a, rotl32 30 b, c, d)

/-- Compress one 64-byte block into the running hash state `h0..h4`. -/
def sha1Block (h : Nat × Nat × Nat × Nat × Nat) (b : List Nat) :
    Nat × Nat × Nat × Nat × Nat :=
  let w := extendWords (Array.mk (blockWords b))
  let (h0, h1, h2, h3, h4) := h
  let (a, b', c, d, e) := (List.range 80).foldl (sha1Round w) (h0, h1, h2, h3, h4)
  ((h0 + a) % m32, (h1 + b') % m32, (h2 + c) % m32, (h3 + d) % m32, (h4 + e) % m32)

/-- SHA-1 padding: append `0x80`, zero fill to 56 mod 64, then the bit
length as a 64-bit big-endian integer. -/
def sha1Pad (msg : List Nat) : List Nat :=
  let len := msg.length
  let zeros := (119 - len % 64) % 64
  let bitLen := (8 * len) % (2^64)
  msg ++ [0x80] ++ List.replicate zeros 0 ++
    (List.range 8).map (fun i => (bitLen >>> (8 * (7 - i))) % 256)

/-- SHA-1 digest of a byte list, as the five 32-bit state words. -/
def sha1Words (msg : List Nat) : Nat × Nat × Nat × Nat × Nat :=
  (toBlocks (sha1Pad msg)).foldl sha1Block
    (0x67452301, 0xEFCDAB89, 0x98BADCFE, 0x10325476, 0xC3D2E1F0)

def hexDigit (n : Nat) : Char :=
  if n < 10 then Char.ofNat (48 + n) else Char.ofNat (87 + n)

/-- Lower-case hexadecimal rendering of a 32-bit word (8 digits). -/
def wordHex (x : Nat) : String :=
  String.mk ((List.range 8).map fun i => hexDigit ((x >>> (4 * (7 - i))) % 16))

/-- `hashlib.sha1(bytes).hexdigest()`: the 40-hex-character digest. -/
def sha1Hex (msg : List Nat) : String :=
  let (h0, h1, h2, h3, h4) := sha1Words msg
  wordHex h0 ++ wordHex h1 ++ wordHex h2 ++ wordHex h3 ++ wordHex h4

/-- UTF-8 encoding of one code point (Python `str.encode("utf-8")`). -/
def utf8Char (c : Char) : List Nat :=
  let n := c.toNat
  if n < 0x80 then [n]
  else if n < 0x800 then [0xC0 ||| (n >>> 6), 0x80 ||| (n &&& 0x3F)]
  else if n < 0x10000 then
    [0xE0 ||| (n >>> 12), 0x80 ||| ((n >>> 6) &&& 0x3F), 0x80 ||| (n &&& 0x3F)]
  else
    [0xF0 ||| (n >>> 18), 0x80 ||| ((n >>> 12) &&& 0x3F),
     0x80 ||| ((n >>> 6) &&& 0x3F), 0x80 ||| (n &&& 0x3F)]

/-- Python `s.encode("utf-8")` as a byte list. -/
def utf8Encode (s : String) : List Nat :=
  s.data.flatMap utf8Char

/-! ### Fingerprint functions

`api/utils/hash.py::compute_abstract_sha1` and
`api/ingest_service.py::compute_sha1`. -/

/-- The whitespace-collapsing normalisation of `compute_abstract_sha1`:
`" ".join(abstract.lower().split())`. -/
def normalizeAbstract (abstract : String) : String :=
  pyJoin " " (pySplit (pyLower abstract))

/-- `api/utils/hash.py::compute_abstract_sha1`:
`sha1(f"{patent_id}|{normalized_abstract}|{prompt_version}").hexdigest()`. -/
def compute_abstract_sha1 (patent_id abstract prompt_version : String) : String :=
  let hash_input := patent_id ++ "|" ++ normalizeAbstract abstract ++ "|" ++ prompt_version
  sha1Hex (utf8Encode hash_input)

/-- `api/ingest_service.py::compute_sha1`: plain `sha1(text).hexdigest()`
of the raw text, with no normalisation and no key or version mixed in. -/
def compute_sha1 (text : String) : String :=
  sha1Hex (utf8Encode text)

/-! ### Data model (`api/models.py`)

Rows of the `scores` and `queue` tables; both keyed by
`(patent_id, abstract_sha1)`.  `DateTime` columns are modelled as `Nat`
timestamps.  The database is the pair of tables, each a list of rows in
table order. -/

/-- A parsed patent record (the dicts produced by `parse_xml_stream` /
`parse_csv_stream`). -/
structure PatentRecord where
  patent_id : String
  title : String
  abstract : String
  pub_date : String
  source : String
deriving DecidableEq

/-- A row of the `scores` table (`api/models.py::Score`). -/
structure Score where
  patent_id : String
  abstract_sha1 : String
  relevance : String
  subsystem_json : String
  title : String
  abstract : String
  pub_date : String
  source : String
  model_id : String
  prompt_version : String
  scored_at : Nat
deriving DecidableEq

/-- A row of the `queue` table (`api/models.py::QueueItem`). -/
structure QueueItem where
  patent_id : String
  abstract_sha1 : String
  title : String
  abstract : String
  pub_date : String
  source : String
  enqueued_at : Nat
  status : String
deriving DecidableEq

/-- The persistent store: `scores` and `queue` tables. -/
structure DB where
  scores : List Score
  queue : List QueueItem
deriving DecidableEq

/-- `json.dumps` of a list of plain strings (no escaping needed for the
strings this pipeline stores). -/
def jsonDumps (xs : List String) : String :=
  "[" ++ String.intercalate ", " (xs.map (fun s => "\"" ++ s ++ "\"")) ++ "]"

/-! ### Dedup gate (`api/ingest_service.py`) -/

/-- `check_existing_score`: query the `scores` table by the composite key. -/
def check_existing_score (db : DB) (patent_id abstract_sha1 : String) : Option Score :=
  db.scores.find? (fun s => s.patent_id == patent_id && s.abstract_sha1 == abstract_sha1)

/-- `check_existing_in_queue`: query the `queue` table by the composite key. -/
def check_existing_in_queue (db : DB) (patent_id abstract_sha1 : String) : Option QueueItem :=
  db.queue.find? (fun q => q.patent_id == patent_id && q.abstract_sha1 == abstract_sha1)

/-- Per-run dedup counters of `process_ingest_job`. -/
structure IngestCounters where
  existing_count : Nat
  queued_count : Nat
  new_count : Nat
deriving DecidableEq

/-- One iteration of the dedup loop of `process_ingest_job`
(lines 304–334): compute the fingerprint, check `scores`, check `queue`,
else enqueue a new `pending` item. -/
def ingestStep (now : Nat) (acc : DB × IngestCounters) (rec : PatentRecord) :
    DB × IngestCounters :=
  let db := acc.1
  let c := acc.2
  let abstract_sha1 := compute_sha1 rec.abstract
  match check_existing_score db rec.patent_id abstract_sha1 with
  | some _ => (db, { c with existing_count := c.existing_count + 1 })
  | none =>
    match check_existing_in_queue db rec.patent_id abstract_sha1 with
    | some _ => (db, { c with queued_count := c.queued_count + 1 })
    | none =>
      let qi : QueueItem :=
        { patent_id := rec.patent_id, abstract_sha1 := abstract_sha1,
          title := rec.title, abstract := rec.abstract,
          pub_date := rec.pub_date, source := rec.source,
          enqueued_at := now, status := "pending" }
      ({ db with queue := db.queue ++ [qi] },
       { c with new_count := c.new_count + 1 })

/-- The dedup loop of `process_ingest_job` over the parsed records. -/
def ingestRecords (now : Nat) (recs : List PatentRecord) (db : DB) :
    DB × IngestCounters :=
  recs.foldl (ingestStep now) (db, ⟨0, 0, 0⟩)

/-- `process_ingest_job` after parsing: with no records the job fails and
the store is untouched; otherwise the dedup loop runs.  (The `ingest_jobs`
bookkeeping table is not modelled; no claim concerns it.) -/
def process_ingest_job (now : Nat) (recs : List PatentRecord) (db : DB) :
    DB × IngestCounters :=
  if recs.isEmpty then (db, ⟨0, 0, 0⟩) else ingestRecords now recs db

/-! ### Keyword classifier (`scorer.py`, `api/scoring_service.py`)

A keyword mapping is an ordered association list (Python dicts iterate in
insertion order). -/

/-- `scorer.py::keyword_score` with a mapping: lowercase
`f"{title} {abstract} {text}"`, count raw substring occurrences of every
keyword, collect subsystems with a positive count, and threshold the total
(≥ 3 High, ≥ 1 Medium, else Low).  With an empty mapping the Python code
takes the `keywords` branch with `keywords=None`, which also yields zero
matches and no subsystems, so the two agree.  Returns
(`Relevance`, `Subsystem`). -/
def keyword_score (text title abstract : String)
    (mapping : List (String × List String)) : String × List String :=
  let content := pyLower (title ++ " " ++ abstract ++ " " ++ text)
  let folded := mapping.foldl
    (fun (acc : List String × Nat) (p : String × List String) =>
      let count := (p.2.map (fun k => pyCount k content)).sum
      if count > 0 then (acc.1 ++ [p.1], acc.2 + count) else acc)
    ([], 0)
  let total_matches := folded.2
  let relevance :=
    if total_matches ≥ 3 then "High"
    else if total_matches ≥ 1 then "Medium"
    else "Low"
  (relevance, folded.1)

/-- `api/scoring_service.py::get_default_mapping`. -/
def get_default_mapping : List (String × List String) :=
  [("Mobility", ["mobility", "wheel", "track", "locomotion", "navigation",
                 "autonomous", "terrain"]),
   ("Sensing", ["sensor", "camera", "lidar", "radar", "detection", "imaging",
                "sonar"]),
   ("Manipulation", ["manipulator", "arm", "gripper", "actuator",
                     "end effector", "grasping"]),
   ("Control", ["control", "controller", "algorithm", "processing",
                "computing", "software"]),
   ("Power", ["power", "battery", "energy", "charging", "fuel", "generator"]),
   ("Communication", ["communication", "wireless", "telemetry",
                      "data transmission", "network"]),
   ("Demining", ["mine", "explosive", "demining", "clearance", "ordnance",
                 "UXO", "IED"])]

/-- `api/scoring_service.py::score_patent`: `"llm"` falls back to
`"keyword"`; the keyword branch uses the default mapping when none is
given; any other mode returns (`"Low"`, `[]`). -/
def score_patent (title abstract : String)
    (mapping : Option (List (String × List String))) (mode : String) :
    String × List String :=
  let mode2 := if mode == "llm" then "keyword" else mode
  if mode2 == "keyword" then
    keyword_score "" title abstract (mapping.getD get_default_mapping)
  else ("Low", [])

/-! ### Batch orchestrator (`api/scoring_service.py`) -/

/-- The classifier strategy boundary: `none` models a raised exception
while scoring one item. -/
abbrev Classifier := String → String → Option (String × List String)

/-- The pipeline's actual classifier: `score_patent` is total, so it never
fails. -/
def keywordClassifier (mapping : Option (List (String × List String)))
    (mode : String) : Classifier :=
  fun title abstract => some (score_patent title abstract mapping mode)

/-- `relevance_order.get(relevance, 0)`. -/
def relevanceNum (r : String) : Nat :=
  if r == "High" then 3 else if r == "Medium" then 2
  else if r == "Low" then 1 else 0

/-- `relevance_order.get(min_relevance, 2)`. -/
def minScoreOf (m : String) : Nat :=
  if m == "High" then 3 else if m == "Medium" then 2
  else if m == "Low" then 1 else 2

/-- The statistics `process_queue_batch` returns. -/
structure BatchStats where
  processed : Nat
  scored : Nat
  filtered : Nat
  errors : Nat
deriving DecidableEq

/-- `item.status = st` on the ORM row: update the queue rows with the
item's composite key. -/
def setQueueStatus (patent_id abstract_sha1 st : String) (db : DB) : DB :=
  { db with queue := db.queue.map (fun q =>
      if q.patent_id == patent_id && q.abstract_sha1 == abstract_sha1 then
        { q with status := st }
      else q) }

/-- `db.merge(score_entry)`: replace the row with the same primary key, or
insert a new one. -/
def mergeScore (row : Score) (db : DB) : DB :=
  if db.scores.any (fun s =>
      s.patent_id == row.patent_id && s.abstract_sha1 == row.abstract_sha1) then
    { db with scores := db.scores.map (fun s =>
        if s.patent_id == row.patent_id && s.abstract_sha1 == row.abstract_sha1 then
          row
        else s) }
  else { db with scores := db.scores ++ [row] }

/-- The per-item body of the `process_queue_batch` loop (lines 123–168):
on classifier success count it processed and either merge a `Score` row and
mark the item `scored` (relevance at or above the threshold) or mark it
`scored` with no row (below threshold, deferred to the sync step); on
classifier failure mark it `error` and count the error.  Nothing is
re-thrown. -/
def processItem (classify : Classifier) (minScore : Nat) (mode : String)
    (now : Nat) (acc : DB × BatchStats) (item : QueueItem) : DB × BatchStats :=
  let (db, st) := acc
  match classify item.title item.abstract with
  | none =>
    (setQueueStatus item.patent_id item.abstract_sha1 "error" db,
     { st with errors := st.errors + 1 })
  | some (relevance, subsystem) =>
    let st2 := { st with processed := st.processed + 1 }
    if relevanceNum relevance ≥ minScore then
      let row : Score :=
        { patent_id := item.patent_id, abstract_sha1 := item.abstract_sha1,
          relevance := relevance, subsystem_json := jsonDumps subsystem,
          title := item.title, abstract := item.abstract,
          pub_date := item.pub_date, source := item.source,
          model_id := mode ++ "-scorer", prompt_version := "v1.0",
          scored_at := now }
      (setQueueStatus item.patent_id item.abstract_sha1 "scored" (mergeScore row db),
       { st2 with scored := st2.scored + 1 })
    else
      (setQueueStatus item.patent_id item.abstract_sha1 "scored" db,
       { st2 with filtered := st2.filtered + 1 })

/-- The pending selection of `process_queue_batch` (lines 102–104): the
query filters on `status == 'pending'` and applies `LIMIT`, with **no**
`ORDER BY`, so it yields the first `batch_size` pending rows in table
order. -/
def pendingBatch (batch_size : Nat) (db : DB) : List QueueItem :=
  (db.queue.filter (fun q => q.status == "pending")).take batch_size

/-- `api/scoring_service.py::process_queue_batch`. -/
def process_queue_batch (classify : Classifier) (mode : String)
    (now batch_size : Nat) (min_relevance : String) (db : DB) :
    DB × BatchStats :=
  let pending := pendingBatch batch_size db
  if pending.isEmpty then (db, ⟨0, 0, 0, 0⟩)
  else pending.foldl (processItem classify (minScoreOf min_relevance) mode now)
    (db, ⟨0, 0, 0, 0⟩)

/-- Number of `pending` rows in the queue. -/
def pendingCount (db : DB) : Nat :=
  db.queue.countP (fun q => q.status == "pending")

/-! ### Skip requests (`api/main.py::skip_queue_items`)

The UPDATE filters on `patent_id IN patent_ids` only — there is no filter
on the current status — and returns the matched row count. -/

def skip_queue_items (patent_ids : List String) (db : DB) : DB × Nat :=
  (({ db with queue := db.queue.map (fun q =>
        if patent_ids.contains q.patent_id then { q with status := "skipped" }
        else q) }),
   db.queue.countP (fun q => patent_ids.contains q.patent_id))

/-! ### Sync gate (`api/main.py::sync_to_airtable`)

The Airtable lookup (`filterByFormula` by Patent ID) and the create POST
are external calls, modelled by the oracles `extExists` and `extCreateOk`.
`pushed` records the Score rows for which a create was attempted. -/

structure SyncStats where
  synced : Nat
  skipped : Nat
  errors : Nat
  removed : Nat
  pushed : List Score
deriving DecidableEq

/-- Per-score body of the sync loop (lines 567–640): look up by Patent ID;
if present skip, else attempt the create (counted `synced` or `errors` by
the remote outcome). -/
def syncPushStep (extExists extCreateOk : String → Bool) (acc : SyncStats)
    (s : Score) : SyncStats :=
  if extExists s.patent_id then { acc with skipped := acc.skipped + 1 }
  else if extCreateOk s.patent_id then
    { acc with synced := acc.synced + 1, pushed := acc.pushed ++ [s] }
  else { acc with errors := acc.errors + 1, pushed := acc.pushed ++ [s] }

/-- `db.query(QueueItem).filter(key).first()` followed by `db.delete(qi)`:
remove the first row with the composite key, reporting whether one was
found. -/
def eraseFirstQueue (patent_id abstract_sha1 : String) :
    List QueueItem → List QueueItem × Bool
  | [] => ([], false)
  | q :: rest =>
    if q.patent_id == patent_id && q.abstract_sha1 == abstract_sha1 then
      (rest, true)
    else
      let r := eraseFirstQueue patent_id abstract_sha1 rest
      (q :: r.1, r.2)

/-- Per-Low-score body of the removal loop (lines 647–658): delete the
matching QueueItem if still present; absent rows are a no-op. -/
def syncRemoveStep (acc : List QueueItem × Nat) (s : Score) :
    List QueueItem × Nat :=
  let r := eraseFirstQueue s.patent_id s.abstract_sha1 acc.1
  if r.2 then (r.1, acc.2 + 1) else (acc.1, acc.2)

/-- `api/main.py::sync_to_airtable`: select High/Medium Score rows for the
requested patent_ids and push them; then delete lingering QueueItems of
Low Score rows for those ids.  The `scores` table is never modified. -/
def sync_to_airtable (extExists extCreateOk : String → Bool)
    (patent_ids : List String) (db : DB) : DB × SyncStats :=
  if patent_ids.isEmpty then (db, ⟨0, 0, 0, 0, []⟩)
  else
    let scoresSel := db.scores.filter (fun s =>
      patent_ids.contains s.patent_id &&
      (s.relevance == "High" || s.relevance == "Medium"))
    let stats := scoresSel.foldl (syncPushStep extExists extCreateOk)
      ⟨0, 0, 0, 0, []⟩
    let low_scores := db.scores.filter (fun s =>
      patent_ids.contains s.patent_id && s.relevance == "Low")
    let removal := low_scores.foldl syncRemoveStep (db.queue, 0)
    ({ db with queue := removal.1 }, { stats with removed := removal.2 })

/-! ### Wildcard matcher (`api/services/matcher.py`)

`wildcard_to_regex` escapes the pattern, turns `*` into `.*` and `?` into
`.`, and compiles with `re.IGNORECASE`.  The statement that would prepend
the `\b` word-boundary anchor sits inside a comment (the line contains
literal backtick-n sequences instead of newlines), so the compiled regex
is unanchored.  `wildcardSearch` is the resulting matcher: does the
pattern match anywhere in the text, case-insensitively? -/

inductive RTok where
  | lit (c : Char)
  | anyOne
  | anyStar
deriving DecidableEq

/-- Token list of the compiled pattern: `*` → `.*`, `?` → `.`, everything
else a literal. -/
def wildcardTokens (pattern : String) : List RTok :=
  pattern.data.map fun c =>
    if c = '*' then RTok.anyStar else if c = '?' then RTok.anyOne else RTok.lit c

/-- Regex matching at the current position (`fuel` is an upper bound on
`ts.length + xs.length + 1`, which every recursive call decreases). -/
def matchRegex (fuel : Nat) (ts : List RTok) (xs : List Char) : Bool :=
  match fuel, ts, xs with
  | 0, _, _ => false
  | _ + 1, [], _ => true
  | f + 1, RTok.lit c :: ts2, x :: xs2 =>
    (x.toLower == c.toLower) && matchRegex f ts2 xs2
  | _ + 1, RTok.lit _ :: _, [] => false
  | f + 1, RTok.anyOne :: ts2, _ :: xs2 => matchRegex f ts2 xs2
  | _ + 1, RTok.anyOne :: _, [] => false
  | f + 1, RTok.anyStar :: ts2, xs2 =>
    matchRegex f ts2 xs2 ||
      (match xs2 with
       | [] => false
       | _ :: r => matchRegex f (RTok.anyStar :: ts2) r)

/-- `re.search` semantics: try a match at every start position. -/
def searchAux (ts : List RTok) : List Char → Bool
  | [] => matchRegex (ts.length + 1) ts []
  | x :: r =>
    matchRegex (ts.length + (x :: r).length + 1) ts (x :: r) || searchAux ts r

/-- Does the regex compiled by `wildcard_to_regex(pattern)` match anywhere
in `text`?  (`regex.findall(text)` is non-empty iff this holds.) -/
def wildcardSearch (pattern text : String) : Bool :=
  searchAux (wildcardTokens pattern) text.data

/-- `matcher.py::normalize_text`: lowercase, strip, collapse whitespace
runs (`re.sub(r'\s+', ' ', text.lower().strip())`, which equals joining
the whitespace-split pieces with single spaces). -/
def normalize_text (text : String) : String :=
  pyJoin " " (pySplit (pyLower text))

/-! ### Extractor: XML (`api/ingest_service.py::extract_record_from_xml`)

An `ElementTree` element is a tag, the text before its first child, and
its children.  Namespaced tags keep their `{ns}` prefix; `_strip_ns`
removes it. -/

inductive XElem where
  | mk (tag : String) (text : String) (children : List XElem)

def XElem.tag : XElem → String
  | .mk t _ _ => t

def XElem.text : XElem → String
  | .mk _ s _ => s

def XElem.children : XElem → List XElem
  | .mk _ _ cs => cs

/-- `_strip_ns`: everything after the first closing brace (code 125), if
any — `tag.split` at the brace, keeping the last part. -/
def stripNs (tag : String) : String :=
  if tag.data.contains (Char.ofNat 125) then
    String.mk ((tag.data.dropWhile (fun c => c.toNat ≠ 125)).drop 1)
  else tag

mutual
/-- Proper descendants of an element in document (preorder) order. -/
def descendants : XElem → List XElem
  | .mk _ _ cs => descendantsList cs
def descendantsList : List XElem → List XElem
  | [] => []
  | c :: rest => c :: descendants c ++ descendantsList rest
end

/-- `elem.find('.//{*}name')`: first descendant with the local tag. -/
def findDesc (name : String) (e : XElem) : Option XElem :=
  (descendants e).find? (fun c => stripNs c.tag == name)

/-- `elem.find('{*}name')`: first child with the local tag. -/
def findChild (name : String) (e : XElem) : Option XElem :=
  e.children.find? (fun c => stripNs c.tag == name)

/-- `elem.find('.//{*}p/{*}c')`: first `c` child of a `p` descendant. -/
def findDescChild (p c : String) (e : XElem) : Option XElem :=
  (((descendants e).filter (fun d => stripNs d.tag == p)).flatMap
    (fun d => d.children.filter (fun x => stripNs x.tag == c))).head?

/-- `_text(elem)`: the stripped text, `''` for a missing element. -/
def textOf (e : Option XElem) : String :=
  match e with
  | none => ""
  | some el => pyStrip el.text

/-- `_iter_children(elem, name)`. -/
def childrenNamed (name : String) (e : XElem) : List XElem :=
  e.children.filter (fun c => stripNs c.tag == name)

/-- The final guard of `extract_record_from_xml`
(`if not patent_id or not abstract: return None`): empty strings are the
only falsy values that can occur there. -/
def guardRecord (patent_id title abstract pub_date source : String) :
    Option PatentRecord :=
  if patent_id == "" || abstract == "" then none
  else some ⟨patent_id, title, abstract, pub_date, source⟩

/-- `extract_record_from_xml` (lines 46–92): compose the document id from
country + number + kind when all three are present (else the number
alone), join the stripped abstract paragraphs with spaces, and drop the
record only when the id or the joined abstract is the empty string. -/
def extract_record_from_xml (e : XElem) : Option PatentRecord :=
  let doc_tag := stripNs e.tag
  let source := if pyContains "grant" (pyLower doc_tag) then "GRANT" else "IPAB"
  match findDescChild "publication-reference" "document-id" e with
  | none => none
  | some pub_ref =>
    let doc_num := textOf (findChild "doc-number" pub_ref)
    let kind := textOf (findChild "kind" pub_ref)
    let date := textOf (findChild "date" pub_ref)
    let country := textOf (findChild "country" pub_ref)
    let patent_id :=
      if country ≠ "" && doc_num ≠ "" && kind ≠ "" then country ++ doc_num ++ kind
      else doc_num
    let title := textOf (findDesc "invention-title" e)
    let abstract_parts :=
      match findDesc "abstract" e with
      | none => []
      | some a => (childrenNamed "p" a).map (fun p => pyStrip p.text)
    let abstract := String.intercalate " " abstract_parts
    guardRecord patent_id title abstract date source

/-- `parse_xml_stream`: every closing `us-patent-application` /
`us-patent-grant` element is fed to `extract_record_from_xml`; failed
extractions are dropped.  The argument is the list of such elements in
stream order. -/
def parse_xml_stream (elems : List XElem) : List PatentRecord :=
  elems.filterMap (fun e =>
    if stripNs e.tag == "us-patent-application" || stripNs e.tag == "us-patent-grant" then
      extract_record_from_xml e
    else none)

/-! ### Extractor: CSV (`api/ingest_service.py::parse_csv_stream`)

A row is the header→value association the `DictReader` yields, in column
order; later duplicate normalised keys overwrite earlier ones as in a
Python dict. -/

/-- Insert with overwrite, preserving first-insertion order. -/
def dictInsert (k v : String) (m : List (String × String)) :
    List (String × String) :=
  if m.any (fun p => p.1 == k) then
    m.map (fun p => if p.1 == k then (k, v) else p)
  else m ++ [(k, v)]

/-- Key normalisation (line 138): strip, drop leading BOMs, lowercase, and
fold space, `/`, `-` to `_` (the replaced patterns are single characters,
so `str.replace` is a character map). -/
def normKey (k : String) : String :=
  let k1 := (pyStrip k).data.dropWhile (fun c => c.toNat = 0xFEFF)
  String.mk (k1.map (fun c =>
    let c2 := Char.toLower c
    if c2 = ' ' ∨ c2 = '/' ∨ c2 = '-' then '_' else c2))

/-- The `normalized` dict of one CSV row: skip empty column names, strip
values. -/
def normalizeRow (row : List (String × String)) : List (String × String) :=
  row.foldl (fun m p =>
    if p.1 == "" then m else dictInsert (normKey p.1) (pyStrip p.2) m) []

/-- `normalized.get(key)` with `''` for a missing key (`or`-chains treat
missing and empty alike). -/
def getCol (m : List (String × String)) (k : String) : String :=
  match m.find? (fun p => p.1 == k) with
  | some p => p.2
  | none => ""

/-- Python `a or b` on strings. -/
def pyOrS (a b : String) : String := if a ≠ "" then a else b

/-- The guards at the end of the CSV row loop (lines 176–194): an empty id
drops the row; an empty or short abstract falls back to a title of length
≥ 10 or drops the row. -/
def guardCsvRecord (patent_id title abstract pub_date source : String) :
    Option PatentRecord :=
  if patent_id == "" then none
  else if abstract == "" || abstract.length < 10 then
    if title.length ≥ 10 then some ⟨patent_id, title, title, pub_date, source⟩
    else none
  else some ⟨patent_id, title, abstract, pub_date, source⟩

/-- `parse_csv_stream`'s per-row logic (lines 132–194): resolve the id,
title, abstract and date through their column-alias chains, fall back to
the title when the abstract is shorter than 10 characters, and drop the
row when no candidate of length ≥ 10 exists or the id is empty. -/
def parse_csv_row (row : List (String × String)) : Option PatentRecord :=
  let normalized := normalizeRow row
  let patent_id :=
    pyOrS (getCol normalized "patent_id") (pyOrS (getCol normalized "patentid")
      (pyOrS (getCol normalized "document_id") (pyOrS (getCol normalized "doc_number")
        (getCol normalized "publication_number"))))
  let title := pyOrS (getCol normalized "title") (getCol normalized "invention_title")
  let abstract0 :=
    pyOrS (getCol normalized "abstract") (pyOrS (getCol normalized "notes")
      (pyOrS (getCol normalized "summary") title))
  let pub_date :=
    pyOrS (getCol normalized "pub_date") (pyOrS (getCol normalized "pubdate")
      (pyOrS (getCol normalized "date_published") (pyOrS (getCol normalized "date")
        (getCol normalized "filing_date"))))
  let source :=
    match normalized.find? (fun p => p.1 == "source") with
    | some p => p.2
    | none => "USPTO CSV"
  guardCsvRecord patent_id title abstract0 pub_date source

/-- `parse_csv_stream` over the parsed rows. -/
def parse_csv_stream (rows : List (List (String × String))) : List PatentRecord :=
  rows.filterMap parse_csv_row

/-! ### Pending-count lemmas and `process_all_pending` -/

theorem countP_lt_of_witness {α : Type} (l : List α) (p q : α → Bool)
    (hmono : ∀ x ∈ l, p x = true → q x = true)
    (w : α) (hw : w ∈ l) (hq : q w = true) (hp : p w = false) :
    l.countP p < l.countP q := by
  induction l with
  | nil => cases hw
  | cons a t ih =>
    simp only [List.countP_cons]
    rcases List.mem_cons.mp hw with rfl | hw2
    · have hle : t.countP p ≤ t.countP q :=
        List.countP_mono_left (fun x hx => hmono x (List.mem_cons_of_mem _ hx))
      simp only [hp, hq, Bool.false_eq_true, if_true, if_false]
      omega
    · have hlt : t.countP p < t.countP q :=
        ih (fun x hx hpx => hmono x (List.mem_cons_of_mem _ hx) hpx) hw2
      by_cases hpa : p a = true
      · have hqa := hmono a (List.mem_cons_self _ _) hpa
        simp only [hpa, hqa, if_true]
        omega
      · have hpa2 : p a = false := by simpa using hpa
        simp only [hpa2, Bool.false_eq_true, if_false]
        by_cases hqa : q a = true
        · simp only [hqa, if_true]; omega
        · have hqa2 : q a = false := by simpa using hqa
          simp only [hqa2, Bool.false_eq_true, if_false]; omega

theorem mergeScore_queue (row : Score) (db : DB) :
    (mergeScore row db).queue = db.queue := by
  unfold mergeScore; split <;> rfl

theorem pendingCount_mergeScore (row : Score) (db : DB) :
    pendingCount (mergeScore row db) = pendingCount db := by
  unfold pendingCount; rw [mergeScore_queue]

theorem pendingCount_setQueueStatus_le (pid sha st : String)
    (hst : (st == "pending") = false) (db : DB) :
    pendingCount (setQueueStatus pid sha st db) ≤ pendingCount db := by
  unfold pendingCount setQueueStatus
  simp only [List.countP_map]
  refine List.countP_mono_left ?_
  intro x _ h
  simp only [Function.comp] at h
  by_cases hk : (x.patent_id == pid && x.abstract_sha1 == sha) = true
  · rw [if_pos hk] at h
    simp only [hst] at h
    cases h
  · rwa [if_neg (by simpa using hk)] at h

theorem pendingCount_setQueueStatus_lt (pid sha st : String)
    (hst : (st == "pending") = false) (db : DB) (w : QueueItem)
    (hw : w ∈ db.queue)
    (hkey : (w.patent_id == pid && w.abstract_sha1 == sha) = true)
    (hpend : (w.status == "pending") = true) :
    pendingCount (setQueueStatus pid sha st db) < pendingCount db := by
  unfold pendingCount setQueueStatus
  simp only [List.countP_map]
  refine countP_lt_of_witness _ _ _ ?_ w hw hpend ?_
  · intro x _ h
    simp only [Function.comp] at h
    by_cases hk : (x.patent_id == pid && x.abstract_sha1 == sha) = true
    · rw [if_pos hk] at h
      simp only [hst] at h
      cases h
    · rwa [if_neg (by simpa using hk)] at h
  · simp only [Function.comp, if_pos hkey, hst]

theorem pendingCount_processItem_le (classify : Classifier) (minScore : Nat)
    (mode : String) (now : Nat) (acc : DB × BatchStats) (item : QueueItem) :
    pendingCount (processItem classify minScore mode now acc item).1 ≤
      pendingCount acc.1 := by
  obtain ⟨db, st⟩ := acc
  unfold processItem
  cases h : classify item.title item.abstract with
  | none =>
    simpa using pendingCount_setQueueStatus_le _ _ "error" (by decide) db
  | some r =>
    obtain ⟨rel, subs⟩ := r
    by_cases hrel : relevanceNum rel ≥ minScore
    · simp only [hrel, if_pos]
      calc pendingCount (setQueueStatus item.patent_id item.abstract_sha1 "scored"
              (mergeScore _ db)) ≤ pendingCount (mergeScore _ db) :=
            pendingCount_setQueueStatus_le _ _ "scored" (by decide) _
        _ = pendingCount db := pendingCount_mergeScore _ db
    · simp only [hrel, if_neg, if_false]
      simpa using pendingCount_setQueueStatus_le _ _ "scored" (by decide) db

theorem pendingCount_processItem_lt (classify : Classifier) (minScore : Nat)
    (mode : String) (now : Nat) (acc : DB × BatchStats) (item : QueueItem)
    (hw : item ∈ acc.1.queue) (hpend : item.status = "pending") :
    pendingCount (processItem classify minScore mode now acc item).1 <
      pendingCount acc.1 := by
  obtain ⟨db, st⟩ := acc
  have hkey : (item.patent_id == item.patent_id &&
      item.abstract_sha1 == item.abstract_sha1) = true := by simp
  have hpendb : (item.status == "pending") = true := by simp [hpend]
  unfold processItem
  cases h : classify item.title item.abstract with
  | none =>
    simpa using pendingCount_setQueueStatus_lt _ _ "error" (by decide) db
      item hw hkey hpendb
  | some r =>
    obtain ⟨rel, subs⟩ := r
    by_cases hrel : relevanceNum rel ≥ minScore
    · simp only [hrel, if_pos]
      calc pendingCount (setQueueStatus item.patent_id item.abstract_sha1 "scored"
              (mergeScore _ db)) < pendingCount (mergeScore _ db) :=
            pendingCount_setQueueStatus_lt _ _ "scored" (by decide) _ item
              (by rwa [mergeScore_queue]) hkey hpendb
        _ = pendingCount db := pendingCount_mergeScore _ db
    · simp only [hrel, if_neg, if_false]
      simpa using pendingCount_setQueueStatus_lt _ _ "scored" (by decide) db
        item hw hkey hpendb

theorem pendingCount_foldl_le (classify : Classifier) (minScore : Nat)
    (mode : String) (now : Nat) (items : List QueueItem)
    (acc : DB × BatchStats) :
    pendingCount
      (items.foldl (processItem classify minScore mode now) acc).1 ≤
      pendingCount acc.1 := by
  induction items generalizing acc with
  | nil => simp
  | cons x t ih =>
    rw [List.foldl_cons]
    exact le_trans (ih _) (pendingCount_processItem_le _ _ _ _ acc x)

theorem pendingBatch_mem (batch_size : Nat) (db : DB) (x : QueueItem)
    (hx : x ∈ pendingBatch batch_size db) :
    x ∈ db.queue ∧ x.status = "pending" := by
  unfold pendingBatch at hx
  have h1 : x ∈ db.queue.filter (fun q => q.status == "pending") :=
    List.take_subset _ _ hx
  have h2 := List.mem_filter.mp h1
  exact ⟨h2.1, by simpa using h2.2⟩

theorem pendingCount_batch_lt (classify : Classifier) (mode : String)
    (now batch_size : Nat) (min_relevance : String) (db : DB)
    (h : pendingBatch batch_size db ≠ []) :
    pendingCount
      (process_queue_batch classify mode now batch_size min_relevance db).1 <
      pendingCount db := by
  unfold process_queue_batch
  cases hp : pendingBatch batch_size db with
  | nil => exact absurd hp h
  | cons x t =>
    have hxmem : x ∈ pendingBatch batch_size db := by
      rw [hp]; exact List.mem_cons_self _ _
    obtain ⟨hxq, hxpend⟩ := pendingBatch_mem batch_size db x hxmem
    simp only [hp, List.isEmpty_cons, if_neg, Bool.false_eq_true,
      not_false_eq_true, List.foldl_cons]
    exact lt_of_le_of_lt (pendingCount_foldl_le _ _ _ _ t _)
      (pendingCount_processItem_lt _ _ _ _ (db, ⟨0, 0, 0, 0⟩) x hxq hxpend)

theorem processed_ne_zero_batch_nonempty (classify : Classifier)
    (mode : String) (now batch_size : Nat) (min_relevance : String) (db : DB)
    (h : (process_queue_batch classify mode now batch_size min_relevance
        db).2.processed ≠ 0) :
    pendingBatch batch_size db ≠ [] := by
  intro hemp
  apply h
  unfold process_queue_batch
  simp [hemp]

/-- `api/scoring_service.py::process_all_pending`: repeat
`process_queue_batch` and accumulate the statistics of every batch until a
batch reports zero processed items (that final batch's statistics are not
accumulated, matching the `break` before the accumulation). -/
def process_all_pending (classify : Classifier) (mode : String)
    (batch_size : Nat) (min_relevance : String) (now : Nat) (db : DB) :
    DB × BatchStats :=
  let r := process_queue_batch classify mode now batch_size min_relevance db
  if r.2.processed = 0 then (r.1, ⟨0, 0, 0, 0⟩)
  else
    let rest := process_all_pending classify mode batch_size min_relevance now r.1
    (rest.1, ⟨r.2.processed + rest.2.processed, r.2.scored + rest.2.scored,
              r.2.filtered + rest.2.filtered, r.2.errors + rest.2.errors⟩)
termination_by pendingCount db
decreasing_by
  exact pendingCount_batch_lt _ _ _ _ _ _
    (processed_ne_zero_batch_nonempty _ _ _ _ _ _ (by assumption))

/-! ### Concrete example data for the claim instances -/

def lowItem : QueueItem := ⟨"P1", "s1", "hello", "world", "", "CSV", 0, "pending"⟩

def dbLow : DB := ⟨[], [lowItem]⟩

def scoredRow : QueueItem := ⟨"P2", "s2", "t", "a", "", "CSV", 0, "scored"⟩

def dbScored : DB := ⟨[], [scoredRow]⟩

def itemOld : QueueItem := ⟨"A", "sA", "t", "a", "", "CSV", 1, "pending"⟩

def itemNew : QueueItem := ⟨"B", "sB", "t", "a", "", "CSV", 2, "pending"⟩

def dbOutOfOrder : DB := ⟨[], [itemNew, itemOld]⟩

def recP1 : PatentRecord :=
  ⟨"P1", "T", "Uses radar and lidar sensors for detection.", "", "CSV"⟩

def recP2 : PatentRecord :=
  ⟨"P2", "T", "Uses radar and lidar sensors for detection.", "", "CSV"⟩

def shortAbstractElem : XElem :=
  .mk "us-patent-grant" "" [
    .mk "publication-reference" "" [.mk "document-id" "" [
      .mk "doc-number" "1234567" [], .mk "kind" "B2" [],
      .mk "date" "20230101" [], .mk "country" "US" []]],
    .mk "abstract" "" [.mk "p" "short" []]]

def csvRowEx : List (String × String) :=
  [("patent_id", "P1"), ("title", "Mine Detection Robot"),
   ("abstract", "Uses radar and lidar sensors for detection.")]

def lowScoreRow : Score :=
  ⟨"P1", "s1", "Low", "[]", "t", "a", "", "CSV", "m", "v1.0", 0⟩

def highScoreRow : Score :=
  ⟨"P3", "s3", "High", "[]", "t", "a", "", "CSV", "m", "v1.0", 0⟩

def dbSync : DB :=
  ⟨[lowScoreRow, highScoreRow], [⟨"P1", "s1", "t", "a", "", "CSV", 0, "scored"⟩]⟩

/-! ### Helper lemmas: no row ever (re)enters `pending`, processed keys end
`scored`/`error` -/

theorem setQueueStatus_pending_mem (pid sha st : String) (hst : st ≠ "pending")
    (db : DB) :
    ∀ q ∈ (setQueueStatus pid sha st db).queue,
      q.status = "pending" → q ∈ db.queue := by
  intro q hq hp
  unfold setQueueStatus at hq
  simp only [List.mem_map] at hq
  obtain ⟨x, hx, hfx⟩ := hq
  by_cases hk : (x.patent_id == pid && x.abstract_sha1 == sha) = true
  · rw [if_pos hk] at hfx
    rw [← hfx] at hp
    exact absurd hp hst
  · rw [if_neg (by simpa using hk)] at hfx
    rwa [← hfx]

theorem processItem_pending_mem (classify : Classifier) (minScore : Nat)
    (mode : String) (now : Nat) (acc : DB × BatchStats) (item : QueueItem) :
    ∀ q ∈ (processItem classify minScore mode now acc item).1.queue,
      q.status = "pending" → q ∈ acc.1.queue := by
  obtain ⟨db, st⟩ := acc
  unfold processItem
  cases h : classify item.title item.abstract with
  | none => exact setQueueStatus_pending_mem _ _ "error" (by decide) db
  | some r =>
    obtain ⟨rel, subs⟩ := r
    by_cases hrel : relevanceNum rel ≥ minScore
    · simp only [hrel, if_pos]
      intro q hq hp
      have := setQueueStatus_pending_mem _ _ "scored" (by decide) _ q hq hp
      rwa [mergeScore_queue] at this
    · simp only [hrel, if_neg, if_false]
      exact setQueueStatus_pending_mem _ _ "scored" (by decide) db

theorem foldl_pending_mem (classify : Classifier) (minScore : Nat)
    (mode : String) (now : Nat) (items : List QueueItem)
    (acc : DB × BatchStats) :
    ∀ q ∈ (items.foldl (processItem classify minScore mode now) acc).1.queue,
      q.status = "pending" → q ∈ acc.1.queue := by
  induction items generalizing acc with
  | nil => intro q hq _; simpa using hq
  | cons x t ih =>
    intro q hq hp
    rw [List.foldl_cons] at hq
    exact processItem_pending_mem _ _ _ _ acc x q (ih _ q hq hp) hp

theorem batch_pending_mem (classify : Classifier) (mode : String)
    (now batch_size : Nat) (min_relevance : String) (db : DB) :
    ∀ q ∈ (process_queue_batch classify mode now batch_size min_relevance
        db).1.queue, q.status = "pending" → q ∈ db.queue := by
  unfold process_queue_batch
  by_cases he : (pendingBatch batch_size db).isEmpty
  · simp only [he, if_pos]
    intro q hq _
    exact hq
  · simp only [he, if_neg, Bool.false_eq_true, if_false]
    exact foldl_pending_mem _ _ _ _ _ (db, ⟨0, 0, 0, 0⟩)

/-- Every row with the given key has a terminal post-classification
status. -/
def keyDone (pid sha : String) (l : List QueueItem) : Prop :=
  ∀ q ∈ l, q.patent_id = pid → q.abstract_sha1 = sha →
    q.status = "scored" ∨ q.status = "error"

theorem keyDone_setQueueStatus_self (pid sha st : String)
    (hst : st = "scored" ∨ st = "error") (db : DB) :
    keyDone pid sha (setQueueStatus pid sha st db).queue := by
  intro q hq hqp hqs
  unfold setQueueStatus at hq
  simp only [List.mem_map] at hq
  obtain ⟨x, hx, hfx⟩ := hq
  by_cases hk : (x.patent_id == pid && x.abstract_sha1 == sha) = true
  · rw [if_pos hk] at hfx
    rw [← hfx]
    exact hst
  · rw [if_neg (by simpa using hk)] at hfx
    rw [← hfx] at hqp hqs
    simp [hqp, hqs] at hk

theorem keyDone_setQueueStatus_preserve (pid sha pid2 sha2 st : String)
    (hst : st = "scored" ∨ st = "error") (db : DB)
    (h : keyDone pid sha db.queue) :
    keyDone pid sha (setQueueStatus pid2 sha2 st db).queue := by
  intro q hq hqp hqs
  unfold setQueueStatus at hq
  simp only [List.mem_map] at hq
  obtain ⟨x, hx, hfx⟩ := hq
  by_cases hk : (x.patent_id == pid2 && x.abstract_sha1 == sha2) = true
  · rw [if_pos hk] at hfx
    rw [← hfx]
    exact hst
  · rw [if_neg (by simpa using hk)] at hfx
    rw [← hfx] at hqp hqs ⊢
    exact h x hx hqp hqs

theorem keyDone_processItem_self (classify : Classifier) (minScore : Nat)
    (mode : String) (now : Nat) (acc : DB × BatchStats) (item : QueueItem) :
    keyDone item.patent_id item.abstract_sha1
      (processItem classify minScore mode now acc item).1.queue := by
  obtain ⟨db, st⟩ := acc
  unfold processItem
  cases h : classify item.title item.abstract with
  | none => exact keyDone_setQueueStatus_self _ _ "error" (Or.inr rfl) db
  | some r =>
    obtain ⟨rel, subs⟩ := r
    by_cases hrel : relevanceNum rel ≥ minScore
    · simp only [hrel, if_pos]
      exact keyDone_setQueueStatus_self _ _ "scored" (Or.inl rfl) _
    · simp only [hrel, if_neg, if_false]
      exact keyDone_setQueueStatus_self _ _ "scored" (Or.inl rfl) db

theorem keyDone_processItem_preserve (classify : Classifier) (minScore : Nat)
    (mode : String) (now : Nat) (acc : DB × BatchStats) (item : QueueItem)
    (pid sha : String) (h : keyDone pid sha acc.1.queue) :
    keyDone pid sha (processItem classify minScore mode now acc item).1.queue := by
  obtain ⟨db, st⟩ := acc
  unfold processItem
  cases hc : classify item.title item.abstract with
  | none => exact keyDone_setQueueStatus_preserve _ _ _ _ "error" (Or.inr rfl) db h
  | some r =>
    obtain ⟨rel, subs⟩ := r
    by_cases hrel : relevanceNum rel ≥ minScore
    · simp only [hrel, if_pos]
      refine keyDone_setQueueStatus_preserve _ _ _ _ "scored" (Or.inl rfl) _ ?_
      rw [mergeScore_queue]
      exact h
    · simp only [hrel, if_neg, if_false]
      exact keyDone_setQueueStatus_preserve _ _ _ _ "scored" (Or.inl rfl) db h

theorem keyDone_foldl_preserve (classify : Classifier) (minScore : Nat)
    (mode : String) (now : Nat) (items : List QueueItem)
    (acc : DB × BatchStats) (pid sha : String)
    (h : keyDone pid sha acc.1.queue) :
    keyDone pid sha
      ((items.foldl (processItem classify minScore mode now) acc).1).queue := by
  induction items generalizing acc with
  | nil => simpa using h
  | cons x t ih =>
    rw [List.foldl_cons]
    exact ih _ (keyDone_processItem_preserve _ _ _ _ acc x pid sha h)

theorem keyDone_foldl (classify : Classifier) (minScore : Nat)
    (mode : String) (now : Nat) (items : List QueueItem)
    (acc : DB × BatchStats) (item : QueueItem) (hmem : item ∈ items) :
    keyDone item.patent_id item.abstract_sha1
      ((items.foldl (processItem classify minScore mode now) acc).1).queue := by
  induction items generalizing acc with
  | nil => cases hmem
  | cons x t ih =>
    rw [List.foldl_cons]
    rcases List.mem_cons.mp hmem with rfl | hmem2
    · exact keyDone_foldl_preserve _ _ _ _ t _ _ _
        (keyDone_processItem_self _ _ _ _ acc item)
    · exact ih _ hmem2

/-! ### Claim C1 -/

/-- C1, counterexample: a pending item whose keyword classification is Low
under `min_relevance = "Medium"` is successfully classified
(`processed = 1`) and marked `scored`, yet **no** `Score` row is created —
refuting "a Result row is created regardless of the relevance outcome". -/
theorem claim1_counterexample :
    (process_queue_batch (keywordClassifier none "keyword") "keyword" 0 10
      "Medium" dbLow).2.processed = 1 ∧
    (process_queue_batch (keywordClassifier none "keyword") "keyword" 0 10
      "Medium" dbLow).1.scores = [] ∧
    (process_queue_batch (keywordClassifier none "keyword") "keyword" 0 10
      "Medium" dbLow).1.queue.map QueueItem.status = ["scored"] := by
  refine ⟨by decide, by decide, by decide⟩

/-- C1, amended: for every QueueItem successfully classified inside
`process_queue_batch`, the status is set to `scored` regardless of the
relevance outcome, but a `Score` row is merged **only when** the relevance
meets `min_relevance`; below the threshold the item is marked `scored`
with the `scores` table untouched. -/
theorem claim1_amended (classify : Classifier) (minScore : Nat)
    (mode : String) (now : Nat) (db : DB) (st : BatchStats)
    (item : QueueItem) (rel : String) (subs : List String)
    (h : classify item.title item.abstract = some (rel, subs)) :
    (processItem classify minScore mode now (db, st) item).1.queue =
      (setQueueStatus item.patent_id item.abstract_sha1 "scored" db).queue ∧
    (processItem classify minScore mode now (db, st) item).1.scores =
      (if relevanceNum rel ≥ minScore then
        (mergeScore
          { patent_id := item.patent_id, abstract_sha1 := item.abstract_sha1,
            relevance := rel, subsystem_json := jsonDumps subs,
            title := item.title, abstract := item.abstract,
            pub_date := item.pub_date, source := item.source,
            model_id := mode ++ "-scorer", prompt_version := "v1.0",
            scored_at := now } db).scores
       else db.scores) ∧
    (processItem classify minScore mode now (db, st) item).2.processed =
      st.processed + 1 := by
  by_cases hrel : relevanceNum rel ≥ minScore <;>
    simp [processItem, h, hrel, setQueueStatus, mergeScore_queue]

/-- C1, witness for the amended theorem at the concrete Low-relevance
item. -/
theorem claim1_amended_witness :
    (processItem (keywordClassifier none "keyword") 2 "keyword" 0
      (dbLow, ⟨0, 0, 0, 0⟩) lowItem).1.scores = dbLow.scores ∧
    (processItem (keywordClassifier none "keyword") 2 "keyword" 0
      (dbLow, ⟨0, 0, 0, 0⟩) lowItem).1.queue =
      (setQueueStatus lowItem.patent_id lowItem.abstract_sha1 "scored"
        dbLow).queue := by
  have h := claim1_amended (keywordClassifier none "keyword") 2 "keyword" 0
    dbLow ⟨0, 0, 0, 0⟩ lowItem "Low" [] (by decide)
  refine ⟨?_, h.1⟩
  rw [h.2.1]
  simp only [show (relevanceNum "Low" ≥ 2) = False by decide, if_false]

/-! ### Claim C2 -/

/-- C2, counterexample: the fingerprint `process_ingest_job` stores on a
QueueItem is `sha1(raw abstract)` — two records with the same abstract and
different external ids receive the **same** stored fingerprint, and the
stored digest differs from the specified
`hash(external_id | normalize(abstract) | classifier_version)` digest. -/
theorem claim2_counterexample :
    recP1.patent_id ≠ recP2.patent_id ∧
    (ingestRecords 7 [recP1, recP2] ⟨[], []⟩).1.queue.map QueueItem.patent_id =
      ["P1", "P2"] ∧
    (ingestRecords 7 [recP1, recP2] ⟨[], []⟩).1.queue.map
        QueueItem.abstract_sha1 =
      [compute_sha1 recP1.abstract, compute_sha1 recP1.abstract] ∧
    compute_sha1 recP1.abstract ≠
      compute_abstract_sha1 "P1" recP1.abstract "v1.0" := by
  refine ⟨by decide, rfl, rfl, by decide⟩

theorem wordHex_length (x : Nat) : (wordHex x).length = 8 := rfl

/-- C2, amended: `compute_abstract_sha1` does implement the spec's
`hash(external_id | normalize(abstract) | classifier_version)` formula as
a 40-hex digest, but the dedup loop of `process_ingest_job` does not use
it: every newly enqueued QueueItem carries `sha1Hex(utf8(raw abstract))`
as its fingerprint, which depends on nothing but the abstract bytes. -/
theorem claim2_amended (now : Nat) (rec : PatentRecord) (db : DB)
    (c : IngestCounters) (pid abs2 ver : String) (msg : List Nat) :
    compute_abstract_sha1 pid abs2 ver =
      sha1Hex (utf8Encode (pid ++ "|" ++ normalizeAbstract abs2 ++ "|" ++ ver)) ∧
    (sha1Hex msg).length = 40 ∧
    compute_sha1 rec.abstract = sha1Hex (utf8Encode rec.abstract) ∧
    ((ingestStep now (db, c) rec).1.queue = db.queue ∨
     (ingestStep now (db, c) rec).1.queue = db.queue ++
       [{ patent_id := rec.patent_id,
          abstract_sha1 := compute_sha1 rec.abstract,
          title := rec.title, abstract := rec.abstract,
          pub_date := rec.pub_date, source := rec.source,
          enqueued_at := now, status := "pending" }]) := by
  refine ⟨rfl, ?_, rfl, ?_⟩
  · unfold sha1Hex
    rcases sha1Words msg with ⟨a, b, c2, d, e⟩
    simp [String.length_append, wordHex_length]
  · unfold ingestStep
    cases h1 : check_existing_score db rec.patent_id (compute_sha1 rec.abstract) with
    | some s => simp [h1]
    | none =>
      cases h2 : check_existing_in_queue db rec.patent_id (compute_sha1 rec.abstract) with
      | some q => simp [h1, h2]
      | none => simp [h1, h2]

/-! ### Claim C4 -/

/-- C4, counterexample: `skip_queue_items` filters only on `patent_id`, so
an item whose status is already `scored` is moved to `skipped` — refuting
"an item whose status is scored or skipped never changes status again". -/
theorem claim4_counterexample :
    scoredRow.status = "scored" ∧
    (skip_queue_items ["P2"] dbScored).1.queue.map QueueItem.status =
      ["skipped"] := by
  refine ⟨rfl, by decide⟩

/-- C4, amended: neither batch scoring nor skip requests ever move any
item (back) to `pending` — a row that is `pending` afterwards is an
untouched row of the original queue — but a skip request sets `skipped` on
**every** row whose patent_id is requested, regardless of its current
status, so `scored` and `error` items can still transition to `skipped`. -/
theorem claim4_amended (ids : List String) (classify : Classifier)
    (mode : String) (now batch_size : Nat) (min_relevance : String)
    (db : DB) :
    (∀ q ∈ (skip_queue_items ids db).1.queue,
      q.status = "pending" → q ∈ db.queue) ∧
    (∀ q ∈ (skip_queue_items ids db).1.queue,
      q.status = "skipped" ∨ q ∈ db.queue) ∧
    (∀ q ∈ (process_queue_batch classify mode now batch_size min_relevance
        db).1.queue, q.status = "pending" → q ∈ db.queue) := by
  refine ⟨?_, ?_, batch_pending_mem _ _ _ _ _ _⟩
  · intro q hq hp
    unfold skip_queue_items at hq
    simp only [List.mem_map] at hq
    obtain ⟨x, hx, hfx⟩ := hq
    by_cases hk : ids.contains x.patent_id = true
    · rw [if_pos hk] at hfx
      rw [← hfx] at hp
      exact absurd hp (show ("skipped" : String) ≠ "pending" by decide)
    · rw [if_neg (by simpa using hk)] at hfx
      rwa [← hfx]
  · intro q hq
    unfold skip_queue_items at hq
    simp only [List.mem_map] at hq
    obtain ⟨x, hx, hfx⟩ := hq
    by_cases hk : ids.contains x.patent_id = true
    · rw [if_pos hk] at hfx
      rw [← hfx]
      exact Or.inl rfl
    · rw [if_neg (by simpa using hk)] at hfx
      rw [← hfx]
      exact Or.inr hx

/-- C4, witness: the amended theorem applied at a concrete queue — the
untouched pending row survives in both operations. -/
theorem claim4_amended_witness :
    (itemOld ∈ dbOutOfOrder.queue) ∧ (scoredRow ∈ dbScored.queue) := by
  have h1 := (claim4_amended ["X"] (keywordClassifier none "keyword")
    "keyword" 0 0 "Medium" dbOutOfOrder).1 itemOld (by decide) (by decide)
  have h2 := (claim4_amended ["X"] (keywordClassifier none "keyword")
    "keyword" 0 0 "Medium" dbScored).2.1 scoredRow (by decide)
  refine ⟨h1, ?_⟩
  rcases h2 with h | h
  · exact absurd h (by decide)
  · exact h

/-! ### Claim C7 -/

/-- C7: evaluating the matcher code at the claim's inputs.  The compiled
wildcard regex has no word-boundary anchor (the anchoring statement is
trapped inside a comment by literal backtick-n sequences on line 34 of
`matcher.py`), so `detect*` **does** match inside `undetected`, contrary
to the claim and to `wildcard_to_regex`'s own docstring and comment; and
the pipeline's default classifier (`scorer.keyword_score`) counts plain
substring occurrences, so bare `mine` **does** match inside `determine`. -/
theorem claim7_code_behavior :
    wildcardSearch "detect*" "undetected" = true ∧
    wildcardSearch "detect*" "detection" = true ∧
    wildcardSearch "detect*" "detector" = true ∧
    wildcardSearch "detect*" "DETECTION" = true ∧
    (keyword_score "" "" "determine" [("Demining", ["mine"])]).1 = "Medium" ∧
    (keyword_score "" "" "determine" [("Demining", ["mine"])]).2 =
      ["Demining"] := by
  refine ⟨by decide, by decide, by decide, by decide, by decide, by decide⟩

/-! ### Claim C8 -/

theorem guardRecord_some (pid ttl abs2 dt src : String) (rec : PatentRecord)
    (h : guardRecord pid ttl abs2 dt src = some rec) :
    rec = ⟨pid, ttl, abs2, dt, src⟩ ∧ pid ≠ "" ∧ abs2 ≠ "" := by
  unfold guardRecord at h
  by_cases hc : (pid == "" || abs2 == "") = true
  · rw [if_pos hc] at h
    cases h
  · rw [if_neg hc] at h
    simp only [Option.some.injEq] at h
    simp only [Bool.or_eq_true, beq_iff_eq, not_or] at hc
    exact ⟨h.symm, hc.1, hc.2⟩

theorem guardCsvRecord_some (pid ttl abs2 dt src : String)
    (rec : PatentRecord) (h : guardCsvRecord pid ttl abs2 dt src = some rec) :
    rec.patent_id ≠ "" ∧ 10 ≤ rec.abstract.length := by
  unfold guardCsvRecord at h
  by_cases h0 : (pid == "") = true
  · rw [if_pos h0] at h
    cases h
  · rw [if_neg h0] at h
    have hpid : pid ≠ "" := by simpa using h0
    split at h
    · split at h
      · rename_i hlen
        simp only [Option.some.injEq] at h
        rw [← h]
        exact ⟨hpid, hlen⟩
      · cases h
    · rename_i habs
      simp only [Option.some.injEq] at h
      rw [← h]
      simp only [Bool.or_eq_true, beq_iff_eq, decide_eq_true_eq, not_or] at habs
      refine ⟨hpid, ?_⟩
      show 10 ≤ abs2.length
      omega

/-- C8, counterexample: the XML extractor only rejects an **empty**
composed abstract — a well-formed grant document whose abstract paragraph
is `"short"` (5 characters) yields a Document with an abstract of trimmed
length below 10, which enters the pipeline. -/
theorem claim8_counterexample :
    extract_record_from_xml shortAbstractElem =
      some ⟨"US1234567B2", "", "short", "20230101", "GRANT"⟩ ∧
    parse_xml_stream [shortAbstractElem] =
      [⟨"US1234567B2", "", "short", "20230101", "GRANT"⟩] ∧
    ((pyStrip "short").length < 10) := by
  refine ⟨by decide, by decide, by decide⟩

/-- C8, amended: every extracted Document has a non-empty external id and
a non-empty abstract; the length-≥-10 floor is enforced only on the CSV
path (where the abstract or the title fallback must reach 10
characters) — XML-extracted abstracts may be shorter than 10. -/
theorem claim8_amended (e : XElem) (rec : PatentRecord)
    (row : List (String × String)) (rec2 : PatentRecord)
    (h1 : extract_record_from_xml e = some rec)
    (h2 : parse_csv_row row = some rec2) :
    rec.patent_id ≠ "" ∧ rec.abstract ≠ "" ∧
    rec2.patent_id ≠ "" ∧ 10 ≤ rec2.abstract.length := by
  have hx : rec.patent_id ≠ "" ∧ rec.abstract ≠ "" := by
    unfold extract_record_from_xml at h1
    split at h1
    · cases h1
    · obtain ⟨hrec, hpid, habs⟩ := guardRecord_some _ _ _ _ _ _ h1
      rw [hrec]
      exact ⟨hpid, habs⟩
  have hcsv : rec2.patent_id ≠ "" ∧ 10 ≤ rec2.abstract.length := by
    unfold parse_csv_row at h2
    exact guardCsvRecord_some _ _ _ _ _ _ h2
  exact ⟨hx.1, hx.2, hcsv.1, hcsv.2⟩

/-- C8, witness for the amended theorem at a concrete XML element and CSV
row. -/
theorem claim8_amended_witness :
    (PatentRecord.mk "US1234567B2" "" "short" "20230101" "GRANT").patent_id ≠ "" ∧
    (PatentRecord.mk "US1234567B2" "" "short" "20230101" "GRANT").abstract ≠ "" ∧
    (PatentRecord.mk "P1" "Mine Detection Robot"
      "Uses radar and lidar sensors for detection." "" "USPTO CSV").patent_id ≠ "" ∧
    10 ≤ (PatentRecord.mk "P1" "Mine Detection Robot"
      "Uses radar and lidar sensors for detection." "" "USPTO CSV").abstract.length :=
  claim8_amended shortAbstractElem _ csvRowEx _ (by decide) (by decide)

/-! ### Claim C9 -/

/-- C9, counterexample: the pending query has no ORDER BY — with the older
pending item later in table order, a batch of 1 claims the **newer** item,
and a batch of 2 yields a non-ascending enqueue-time sequence. -/
theorem claim9_counterexample :
    itemOld ∈ dbOutOfOrder.queue ∧ itemOld.status = "pending" ∧
    itemOld.enqueued_at < itemNew.enqueued_at ∧
    pendingBatch 1 dbOutOfOrder = [itemNew] ∧
    (pendingBatch 2 dbOutOfOrder).map QueueItem.enqueued_at = [2, 1] := by
  refine ⟨by decide, rfl, by decide, by decide, by decide⟩

/-- C9, amended: `process_queue_batch` selects at most `limit` items, all
with status `pending`, as a prefix of the pending rows in the store's
table order (the query has no ordering clause), not necessarily
oldest-first. -/
theorem claim9_amended (batch_size : Nat) (db : DB) :
    (pendingBatch batch_size db).length ≤ batch_size ∧
    (∀ q ∈ pendingBatch batch_size db, q.status = "pending") ∧
    pendingBatch batch_size db =
      (db.queue.filter (fun q => q.status == "pending")).take batch_size ∧
    List.Sublist (pendingBatch batch_size db) db.queue := by
  refine ⟨List.length_take_le _ _, ?_, rfl, ?_⟩
  · intro q hq
    exact (pendingBatch_mem batch_size db q hq).2
  · exact List.Sublist.trans (List.take_sublist _ _) (List.filter_sublist _)

/-- C9, witness for the amended theorem at the concrete two-row queue. -/
theorem claim9_amended_witness :
    (pendingBatch 1 dbOutOfOrder).length ≤ 1 ∧ itemNew.status = "pending" ∧
    List.Sublist (pendingBatch 1 dbOutOfOrder) dbOutOfOrder.queue :=
  ⟨(claim9_amended 1 dbOutOfOrder).1,
   (claim9_amended 1 dbOutOfOrder).2.1 itemNew (by decide),
   (claim9_amended 1 dbOutOfOrder).2.2.2⟩

/-! ### Claim C10 -/

/-- C10: when the classifier fails on one item (`none` models the raised
exception), that item's rows are set to `error`, the error counter is
incremented by exactly one with all other counters unchanged, no `Score`
row is created, and the batch fold continues with the remaining items —
`processItem` is total, so nothing propagates past the orchestrator. -/
theorem claim10 (classify : Classifier) (minScore : Nat) (mode : String)
    (now : Nat) (db : DB) (st : BatchStats) (item : QueueItem)
    (rest : List QueueItem) (acc2 : DB × BatchStats)
    (h : classify item.title item.abstract = none) :
    (processItem classify minScore mode now (db, st) item).1.scores =
      db.scores ∧
    (processItem classify minScore mode now (db, st) item).1 =
      setQueueStatus item.patent_id item.abstract_sha1 "error" db ∧
    (processItem classify minScore mode now (db, st) item).2 =
      { st with errors := st.errors + 1 } ∧
    (item :: rest).foldl (processItem classify minScore mode now) acc2 =
      rest.foldl (processItem classify minScore mode now)
        (processItem classify minScore mode now acc2 item) := by
  refine ⟨?_, ?_, ?_, List.foldl_cons _ _⟩ <;>
    ((unfold processItem; rw [h]) <;> rfl)

/-! ### Claim C5 -/

/-- C5: a `process_queue_batch` call whose pending selection is non-empty
strictly decreases the number of pending QueueItems — every selected
item's rows end in `scored` or `error`, never `pending` — and the
`process_all_pending` loop stops as soon as a batch reports zero processed
items; the loop is well-founded on the pending count, so it terminates on
any finite queue. -/
theorem claim5 (classify : Classifier) (mode : String) (now batch_size : Nat)
    (min_relevance : String) (db : DB)
    (h : pendingBatch batch_size db ≠ []) :
    pendingCount (process_queue_batch classify mode now batch_size
      min_relevance db).1 < pendingCount db ∧
    (∀ item ∈ pendingBatch batch_size db,
      ∀ q ∈ (process_queue_batch classify mode now batch_size
          min_relevance db).1.queue,
        q.patent_id = item.patent_id → q.abstract_sha1 = item.abstract_sha1 →
        q.status = "scored" ∨ q.status = "error") ∧
    ((process_queue_batch classify mode now batch_size min_relevance
        db).2.processed = 0 →
      process_all_pending classify mode batch_size min_relevance now db =
        ((process_queue_batch classify mode now batch_size min_relevance
          db).1, ⟨0, 0, 0, 0⟩)) := by
  refine ⟨pendingCount_batch_lt _ _ _ _ _ _ h, ?_, ?_⟩
  · intro item hitem q hq hqp hqs
    unfold process_queue_batch at hq
    rw [if_neg (by simpa using h)] at hq
    exact keyDone_foldl _ _ _ _ _ _ item hitem q hq hqp hqs
  · intro hz
    unfold process_all_pending
    simp [hz]

/-- C5, witness: a one-item queue strictly decreases its pending count
under the keyword classifier, and with an always-failing classifier the
same batch reports zero processed items, stopping the drain loop. -/
theorem claim5_witness :
    pendingCount (process_queue_batch (keywordClassifier none "keyword")
      "keyword" 0 10 "Medium" dbLow).1 < pendingCount dbLow ∧
    process_all_pending (fun _ _ => none) "keyword" 10 "Medium" 0 dbLow =
      ((process_queue_batch (fun _ _ => none) "keyword" 0 10 "Medium"
        dbLow).1, ⟨0, 0, 0, 0⟩) :=
  ⟨(claim5 (keywordClassifier none "keyword") "keyword" 0 10 "Medium" dbLow
      (by decide)).1,
   (claim5 (fun _ _ => none) "keyword" 0 10 "Medium" dbLow
      (by decide)).2.2 (by decide)⟩

/-! ### Claim C3 -/

/-- The composite key is known to the store: found in `scores` or in
`queue` — exactly the two dedup checks of `process_ingest_job`. -/
def inStores (db : DB) (pid sha : String) : Bool :=
  (check_existing_score db pid sha).isSome ||
    (check_existing_in_queue db pid sha).isSome

/-- The states reachable from `db` by running scoring batches. -/
inductive ScoringAdvance : DB → DB → Prop
  | refl (db : DB) : ScoringAdvance db db
  | step (classify : Classifier) (mode : String) (now batch_size : Nat)
      (min_relevance : String) (db db2 : DB) :
      ScoringAdvance db db2 →
      ScoringAdvance db
        (process_queue_batch classify mode now batch_size min_relevance db2).1

theorem find?_isSome_append_left {α : Type} (l1 l2 : List α) (p : α → Bool)
    (h : (l1.find? p).isSome = true) :
    ((l1 ++ l2).find? p).isSome = true := by
  induction l1 with
  | nil => simp at h
  | cons a t ih =>
    by_cases hp : p a = true
    · simp [List.find?_cons_of_pos _ hp]
    · rw [List.find?_cons_of_neg _ (by simpa using hp)] at h
      rw [List.cons_append, List.find?_cons_of_neg _ (by simpa using hp)]
      exact ih h

theorem find?_isSome_append_self {α : Type} (l : List α) (x : α) (p : α → Bool)
    (h : p x = true) : ((l ++ [x]).find? p).isSome = true := by
  induction l with
  | nil => simp [List.find?_cons_of_pos _ h]
  | cons a t ih =>
    by_cases hp : p a = true
    · simp [List.find?_cons_of_pos _ hp]
    · rw [List.cons_append, List.find?_cons_of_neg _ (by simpa using hp)]
      exact ih

theorem find?_isSome_map {α : Type} (l : List α) (f : α → α) (p : α → Bool)
    (hf : ∀ x, p x = true → p (f x) = true)
    (h : (l.find? p).isSome = true) :
    ((l.map f).find? p).isSome = true := by
  induction l with
  | nil => simp at h
  | cons a t ih =>
    by_cases hfa : p (f a) = true
    · simp [List.find?_cons_of_pos _ hfa]
    · rw [List.map_cons, List.find?_cons_of_neg _ (by simpa using hfa)]
      apply ih
      by_cases hp : p a = true
      · exact absurd (hf a hp) hfa
      · rwa [List.find?_cons_of_neg _ (by simpa using hp)] at h

theorem inStores_setQueueStatus (pid2 sha2 st pid sha : String) (db : DB)
    (h : inStores db pid sha = true) :
    inStores (setQueueStatus pid2 sha2 st db) pid sha = true := by
  unfold inStores check_existing_score check_existing_in_queue at h ⊢
  unfold setQueueStatus
  simp only [Bool.or_eq_true] at h ⊢
  rcases h with h | h
  · exact Or.inl h
  · refine Or.inr (find?_isSome_map _ _ _ ?_ h)
    intro x hx
    by_cases hk : (x.patent_id == pid2 && x.abstract_sha1 == sha2) = true
    · rw [if_pos hk]
      exact hx
    · rw [if_neg (by simpa using hk)]
      exact hx

theorem inStores_mergeScore (row : Score) (pid sha : String) (db : DB)
    (h : inStores db pid sha = true) :
    inStores (mergeScore row db) pid sha = true := by
  unfold inStores check_existing_score check_existing_in_queue at h ⊢
  unfold mergeScore
  simp only [Bool.or_eq_true] at h ⊢
  rcases h with h | h
  · refine Or.inl ?_
    split
    · refine find?_isSome_map _ _ _ ?_ h
      intro x hx
      by_cases hk : (x.patent_id == row.patent_id &&
          x.abstract_sha1 == row.abstract_sha1) = true
      · rw [if_pos hk]
        simp only [Bool.and_eq_true, beq_iff_eq] at hx hk ⊢
        rw [← hk.1, ← hk.2]
        exact hx
      · rw [if_neg (by simpa using hk)]
        exact hx
    · exact find?_isSome_append_left _ _ _ h
  · refine Or.inr ?_
    split <;> exact h

theorem inStores_processItem (classify : Classifier) (minScore : Nat)
    (mode : String) (now : Nat) (acc : DB × BatchStats) (item : QueueItem)
    (pid sha : String) (h : inStores acc.1 pid sha = true) :
    inStores (processItem classify minScore mode now acc item).1 pid sha =
      true := by
  obtain ⟨db, st⟩ := acc
  unfold processItem
  cases hc : classify item.title item.abstract with
  | none => exact inStores_setQueueStatus _ _ _ _ _ db h
  | some r =>
    obtain ⟨rel, subs⟩ := r
    by_cases hrel : relevanceNum rel ≥ minScore
    · simp only [hrel, if_pos]
      exact inStores_setQueueStatus _ _ _ _ _ _
        (inStores_mergeScore _ _ _ db h)
    · simp only [hrel, if_neg, if_false]
      exact inStores_setQueueStatus _ _ _ _ _ db h

theorem inStores_batch_foldl (classify : Classifier) (minScore : Nat)
    (mode : String) (now : Nat) (items : List QueueItem)
    (acc : DB × BatchStats) (pid sha : String)
    (h : inStores acc.1 pid sha = true) :
    inStores ((items.foldl (processItem classify minScore mode now)
      acc).1) pid sha = true := by
  induction items generalizing acc with
  | nil => simpa using h
  | cons x t ih =>
    rw [List.foldl_cons]
    exact ih _ (inStores_processItem _ _ _ _ acc x pid sha h)

theorem inStores_process_queue_batch (classify : Classifier) (mode : String)
    (now batch_size : Nat) (min_relevance : String) (db : DB)
    (pid sha : String) (h : inStores db pid sha = true) :
    inStores (process_queue_batch classify mode now batch_size min_relevance
      db).1 pid sha = true := by
  unfold process_queue_batch
  by_cases he : (pendingBatch batch_size db).isEmpty
  · simpa [he] using h
  · simp only [he, Bool.false_eq_true, if_false]
    exact inStores_batch_foldl _ _ _ _ _ (db, ⟨0, 0, 0, 0⟩) pid sha h

theorem inStores_scoring_advance (db db2 : DB) (pid sha : String)
    (hadv : ScoringAdvance db db2) (h : inStores db pid sha = true) :
    inStores db2 pid sha = true := by
  induction hadv with
  | refl db => exact h
  | step classify mode now batch_size min_relevance db db2 hprev ih =>
    exact inStores_process_queue_batch _ _ _ _ _ _ _ _ (ih h)

theorem inStores_ingestStep_mono (now : Nat) (acc : DB × IngestCounters)
    (rec : PatentRecord) (pid sha : String)
    (h : inStores acc.1 pid sha = true) :
    inStores (ingestStep now acc rec).1 pid sha = true := by
  unfold ingestStep
  cases h1 : check_existing_score acc.1 rec.patent_id
      (compute_sha1 rec.abstract) with
  | some s => simpa [h1] using h
  | none =>
    cases h2 : check_existing_in_queue acc.1 rec.patent_id
        (compute_sha1 rec.abstract) with
    | some q => simpa [h1, h2] using h
    | none =>
      simp only [h1, h2]
      unfold inStores check_existing_score check_existing_in_queue at h ⊢
      simp only [Bool.or_eq_true] at h ⊢
      rcases h with h | h
      · exact Or.inl h
      · exact Or.inr (find?_isSome_append_left _ _ _ h)

theorem inStores_ingestStep_self (now : Nat) (acc : DB × IngestCounters)
    (rec : PatentRecord) :
    inStores (ingestStep now acc rec).1 rec.patent_id
      (compute_sha1 rec.abstract) = true := by
  unfold ingestStep
  cases h1 : check_existing_score acc.1 rec.patent_id
      (compute_sha1 rec.abstract) with
  | some s =>
    simp only [h1]
    unfold inStores
    simp [h1]
  | none =>
    cases h2 : check_existing_in_queue acc.1 rec.patent_id
        (compute_sha1 rec.abstract) with
    | some q =>
      simp only [h1, h2]
      unfold inStores
      simp [h2]
    | none =>
      simp only [h1, h2]
      unfold inStores check_existing_in_queue
      refine Bool.or_eq_true_iff.mpr (Or.inr ?_)
      exact find?_isSome_append_self _ _ _ (by simp)

theorem inStores_ingest_foldl_mono (now : Nat) (recs : List PatentRecord)
    (acc : DB × IngestCounters) (pid sha : String)
    (h : inStores acc.1 pid sha = true) :
    inStores ((recs.foldl (ingestStep now) acc).1) pid sha = true := by
  induction recs generalizing acc with
  | nil => simpa using h
  | cons x t ih =>
    rw [List.foldl_cons]
    exact ih _ (inStores_ingestStep_mono now acc x pid sha h)

theorem inStores_after_ingest (now : Nat) (recs : List PatentRecord)
    (acc : DB × IngestCounters) (rec : PatentRecord) (hmem : rec ∈ recs) :
    inStores ((recs.foldl (ingestStep now) acc).1) rec.patent_id
      (compute_sha1 rec.abstract) = true := by
  induction recs generalizing acc with
  | nil => cases hmem
  | cons x t ih =>
    rw [List.foldl_cons]
    rcases List.mem_cons.mp hmem with rfl | hm
    · exact inStores_ingest_foldl_mono now t _ _ _
        (inStores_ingestStep_self now acc rec)
    · exact ih _ hm

theorem ingestStep_skip (now : Nat) (acc : DB × IngestCounters)
    (rec : PatentRecord)
    (h : inStores acc.1 rec.patent_id (compute_sha1 rec.abstract) = true) :
    (ingestStep now acc rec).1 = acc.1 ∧
    (ingestStep now acc rec).2.new_count = acc.2.new_count := by
  cases h1 : check_existing_score acc.1 rec.patent_id
      (compute_sha1 rec.abstract) with
  | some s => constructor <;> simp [ingestStep, h1]
  | none =>
    cases h2 : check_existing_in_queue acc.1 rec.patent_id
        (compute_sha1 rec.abstract) with
    | some q => constructor <;> simp [ingestStep, h1, h2]
    | none =>
      unfold inStores at h
      simp [h1, h2] at h

theorem ingest_all_skipped (now : Nat) (recs : List PatentRecord) (db : DB)
    (c : IngestCounters)
    (h : ∀ rec ∈ recs,
      inStores db rec.patent_id (compute_sha1 rec.abstract) = true) :
    (recs.foldl (ingestStep now) (db, c)).1 = db ∧
    (recs.foldl (ingestStep now) (db, c)).2.new_count = c.new_count := by
  induction recs generalizing c with
  | nil => exact ⟨rfl, rfl⟩
  | cons x t ih =>
    rw [List.foldl_cons]
    obtain ⟨hdb, hnew⟩ := ingestStep_skip now (db, c) x
      (h x (List.mem_cons_self _ _))
    have heq : ingestStep now (db, c) x = (db, (ingestStep now (db, c) x).2) := by
      have h2 : (ingestStep now (db, c) x).1 = db := hdb
      exact Prod.ext h2 rfl
    rw [heq]
    obtain ⟨ih1, ih2⟩ := ih ((ingestStep now (db, c) x).2)
      (fun rec hm => h rec (List.mem_cons_of_mem _ hm))
    exact ⟨ih1, by rw [ih2, hnew]⟩

/-- C3: ingestion is idempotent — after a first ingest of `recs` and any
further scoring batches, re-ingesting the same records leaves both tables
exactly unchanged (every record is discarded as already scored or already
queued) and enqueues nothing new. -/
theorem claim3 (now now2 : Nat) (recs : List PatentRecord) (db0 db2 : DB)
    (hadv : ScoringAdvance (ingestRecords now recs db0).1 db2) :
    (ingestRecords now2 recs db2).1 = db2 ∧
    (ingestRecords now2 recs db2).2.new_count = 0 := by
  have hkeys : ∀ rec ∈ recs,
      inStores db2 rec.patent_id (compute_sha1 rec.abstract) = true := by
    intro rec hm
    refine inStores_scoring_advance _ _ _ _ hadv ?_
    exact inStores_after_ingest now recs (db0, ⟨0, 0, 0⟩) rec hm
  exact ingest_all_skipped now2 recs db2 ⟨0, 0, 0⟩ hkeys

/-- C3, witness: one record ingested into the empty store, one scoring
batch, then a second ingest of the same record — stores unchanged, nothing
newly enqueued. -/
theorem claim3_witness :
    (ingestRecords 1 [recP1]
      (process_queue_batch (keywordClassifier none "keyword") "keyword" 0 10
        "Medium" (ingestRecords 0 [recP1] ⟨[], []⟩).1).1).1 =
      (process_queue_batch (keywordClassifier none "keyword") "keyword" 0 10
        "Medium" (ingestRecords 0 [recP1] ⟨[], []⟩).1).1 ∧
    (ingestRecords 1 [recP1]
      (process_queue_batch (keywordClassifier none "keyword") "keyword" 0 10
        "Medium" (ingestRecords 0 [recP1] ⟨[], []⟩).1).1).2.new_count = 0 :=
  claim3 0 1 [recP1] ⟨[], []⟩ _
    (ScoringAdvance.step (keywordClassifier none "keyword") "keyword" 0 10
      "Medium" _ _ (ScoringAdvance.refl _))

/-! ### Claim C6 -/

theorem nodup_key_countP (l : List QueueItem)
    (h : (l.map (fun q => (q.patent_id, q.abstract_sha1))).Nodup)
    (pid sha : String) :
    l.countP (fun q => q.patent_id == pid && q.abstract_sha1 == sha) ≤ 1 := by
  induction l with
  | nil => simp
  | cons a t ih =>
    simp only [List.map_cons, List.nodup_cons] at h
    rw [List.countP_cons]
    by_cases hp : (a.patent_id == pid && a.abstract_sha1 == sha) = true
    · have hzero : t.countP
          (fun q => q.patent_id == pid && q.abstract_sha1 == sha) = 0 := by
        rw [List.countP_eq_zero]
        intro x hx hpx
        apply h.1
        simp only [Bool.and_eq_true, beq_iff_eq] at hp hpx
        simp only [List.mem_map]
        exact ⟨x, hx, by rw [hpx.1, hpx.2, hp.1, hp.2]⟩
      simp only [hp, if_true, hzero]
      omega
    · have hp2 : (a.patent_id == pid && a.abstract_sha1 == sha) = false := by
        simpa using hp
      simp only [hp2, Bool.false_eq_true, if_false]
      have := ih h.2
      omega

theorem eraseFirstQueue_sublist (pid sha : String) (l : List QueueItem) :
    ((eraseFirstQueue pid sha l).1).Sublist l := by
  induction l with
  | nil => simp [eraseFirstQueue]
  | cons q rest ih =>
    unfold eraseFirstQueue
    by_cases hk : (q.patent_id == pid && q.abstract_sha1 == sha) = true
    · rw [if_pos hk]
      exact List.sublist_cons_self _ _
    · rw [if_neg hk]
      exact List.Sublist.cons₂ _ ih

theorem eraseFirstQueue_not_found (pid sha : String) (l : List QueueItem)
    (h : (eraseFirstQueue pid sha l).2 = false) :
    ∀ x ∈ l, ¬(x.patent_id == pid && x.abstract_sha1 == sha) = true := by
  induction l with
  | nil => intro x hx; cases hx
  | cons q rest ih =>
    unfold eraseFirstQueue at h
    by_cases hk : (q.patent_id == pid && q.abstract_sha1 == sha) = true
    · rw [if_pos hk] at h
      cases h
    · rw [if_neg hk] at h
      intro x hx
      rcases List.mem_cons.mp hx with rfl | hx2
      · exact fun hc => hk hc
      · exact ih h x hx2

theorem eraseFirstQueue_nomatch_eq (pid sha : String) (l : List QueueItem)
    (h : ∀ x ∈ l, ¬(x.patent_id == pid && x.abstract_sha1 == sha) = true) :
    eraseFirstQueue pid sha l = (l, false) := by
  induction l with
  | nil => rfl
  | cons q rest ih =>
    unfold eraseFirstQueue
    rw [if_neg (h q (List.mem_cons_self _ _))]
    rw [ih (fun x hx => h x (List.mem_cons_of_mem _ hx))]

theorem eraseFirstQueue_clears (pid sha : String) (l : List QueueItem)
    (h : l.countP (fun q => q.patent_id == pid && q.abstract_sha1 == sha) ≤ 1) :
    ∀ x ∈ (eraseFirstQueue pid sha l).1,
      ¬(x.patent_id == pid && x.abstract_sha1 == sha) = true := by
  induction l with
  | nil => intro x hx; cases hx
  | cons q rest ih =>
    unfold eraseFirstQueue
    rw [List.countP_cons] at h
    by_cases hk : (q.patent_id == pid && q.abstract_sha1 == sha) = true
    · rw [if_pos hk]
      simp only [hk, if_true] at h
      intro x hx hpx
      have hzero : rest.countP
          (fun q => q.patent_id == pid && q.abstract_sha1 == sha) = 0 := by
        omega
      exact (List.countP_eq_zero.mp hzero) x hx hpx
    · rw [if_neg hk]
      intro x hx
      rcases List.mem_cons.mp hx with rfl | hx2
      · exact fun hc => hk hc
      · refine ih ?_ x hx2
        simp only [hk, Bool.false_eq_true, if_false] at h
        omega

theorem syncRemoveStep_sublist (acc : List QueueItem × Nat) (s : Score) :
    ((syncRemoveStep acc s).1).Sublist acc.1 := by
  unfold syncRemoveStep
  by_cases hr : (eraseFirstQueue s.patent_id s.abstract_sha1 acc.1).2 = true
  · rw [if_pos hr]
    exact eraseFirstQueue_sublist _ _ _
  · rw [if_neg hr]

theorem syncRemove_foldl_sublist (low : List Score)
    (acc : List QueueItem × Nat) :
    ((low.foldl syncRemoveStep acc).1).Sublist acc.1 := by
  induction low generalizing acc with
  | nil => exact List.Sublist.refl _
  | cons a t ih =>
    rw [List.foldl_cons]
    exact List.Sublist.trans (ih _) (syncRemoveStep_sublist acc a)

theorem syncRemoveStep_clears (acc : List QueueItem × Nat) (s : Score)
    (h : acc.1.countP (fun q => q.patent_id == s.patent_id &&
        q.abstract_sha1 == s.abstract_sha1) ≤ 1) :
    ∀ x ∈ (syncRemoveStep acc s).1,
      ¬(x.patent_id == s.patent_id &&
        x.abstract_sha1 == s.abstract_sha1) = true := by
  unfold syncRemoveStep
  by_cases hr : (eraseFirstQueue s.patent_id s.abstract_sha1 acc.1).2 = true
  · rw [if_pos hr]
    exact eraseFirstQueue_clears _ _ _ h
  · rw [if_neg hr]
    exact eraseFirstQueue_not_found _ _ _ (by simpa using hr)

theorem syncRemove_foldl_clears (low : List Score) (Q : List QueueItem)
    (acc : List QueueItem × Nat) (hsub : acc.1.Sublist Q)
    (huniq : ∀ pid sha,
      Q.countP (fun q => q.patent_id == pid && q.abstract_sha1 == sha) ≤ 1)
    (s : Score) (hs : s ∈ low) :
    ∀ x ∈ (low.foldl syncRemoveStep acc).1,
      ¬(x.patent_id == s.patent_id &&
        x.abstract_sha1 == s.abstract_sha1) = true := by
  induction low generalizing acc with
  | nil => cases hs
  | cons a t ih =>
    rw [List.foldl_cons]
    rcases List.mem_cons.mp hs with rfl | hs2
    · intro x hx
      have hcount : acc.1.countP (fun q => q.patent_id == s.patent_id &&
          q.abstract_sha1 == s.abstract_sha1) ≤ 1 :=
        le_trans (hsub.countP_le _) (huniq _ _)
      have hstep := syncRemoveStep_clears acc s hcount
      have hsub2 := syncRemove_foldl_sublist t (syncRemoveStep acc s)
      exact hstep x (hsub2.subset hx)
    · exact ih _ (List.Sublist.trans (syncRemoveStep_sublist acc a) hsub) hs2

theorem syncRemove_foldl_frozen (low : List Score) (q : List QueueItem)
    (n : Nat)
    (h : ∀ s ∈ low, ∀ x ∈ q,
      ¬(x.patent_id == s.patent_id &&
        x.abstract_sha1 == s.abstract_sha1) = true) :
    low.foldl syncRemoveStep (q, n) = (q, n) := by
  induction low generalizing n with
  | nil => rfl
  | cons a t ih =>
    rw [List.foldl_cons]
    have hstep : syncRemoveStep (q, n) a = (q, n) := by
      unfold syncRemoveStep
      rw [eraseFirstQueue_nomatch_eq _ _ _ (h a (List.mem_cons_self _ _))]
      rfl
    rw [hstep]
    exact ih n (fun s hs => h s (List.mem_cons_of_mem _ hs))

theorem syncPushStep_pushed (ee ec : String → Bool) (acc : SyncStats)
    (x : Score) :
    ∀ s ∈ (syncPushStep ee ec acc x).pushed, s ∈ acc.pushed ∨ s = x := by
  intro s hs
  unfold syncPushStep at hs
  by_cases h1 : ee x.patent_id = true
  · rw [if_pos h1] at hs
    exact Or.inl hs
  · rw [if_neg h1] at hs
    by_cases h2 : ec x.patent_id = true
    · rw [if_pos h2] at hs
      have hs2 : s ∈ acc.pushed ++ [x] := hs
      simpa using List.mem_append.mp hs2
    · rw [if_neg h2] at hs
      have hs2 : s ∈ acc.pushed ++ [x] := hs
      simpa using List.mem_append.mp hs2

theorem syncPush_foldl_pushed (ee ec : String → Bool) (sel : List Score)
    (acc : SyncStats) :
    ∀ s ∈ (sel.foldl (syncPushStep ee ec) acc).pushed,
      s ∈ acc.pushed ∨ s ∈ sel := by
  induction sel generalizing acc with
  | nil => intro s hs; exact Or.inl hs
  | cons a t ih =>
    intro s hs
    rw [List.foldl_cons] at hs
    rcases ih _ s hs with h | h
    · rcases syncPushStep_pushed ee ec acc a s h with h2 | h2
      · exact Or.inl h2
      · exact Or.inr (h2 ▸ List.mem_cons_self _ _)
    · exact Or.inr (List.mem_cons_of_mem _ h)

theorem sync_components (ee ec : String → Bool) (ids : List String) (db : DB)
    (hne : ids.isEmpty = false) :
    (sync_to_airtable ee ec ids db).1.queue =
      ((db.scores.filter (fun s =>
        ids.contains s.patent_id && s.relevance == "Low")).foldl
          syncRemoveStep (db.queue, 0)).1 ∧
    (sync_to_airtable ee ec ids db).1.scores = db.scores ∧
    (sync_to_airtable ee ec ids db).2.pushed =
      ((db.scores.filter (fun s => ids.contains s.patent_id &&
        (s.relevance == "High" || s.relevance == "Medium"))).foldl
          (syncPushStep ee ec) ⟨0, 0, 0, 0, []⟩).pushed := by
  unfold sync_to_airtable
  rw [if_neg (by simp [hne])]
  exact ⟨rfl, rfl, rfl⟩

/-- C6: the Sync Gate attempts external pushes only for High/Medium Score
rows among the requested patent_ids (no Low row is ever pushed); for every
Low Score row among them, no QueueItem with its composite key survives in
the queue (assuming the unique composite key the ORM declares); repeating
the sync changes nothing further (deleting an absent row is a no-op); and
the `scores` table is never modified. -/
theorem claim6 (extExists extCreateOk : String → Bool)
    (patent_ids : List String) (db : DB)
    (hnodup : (db.queue.map (fun q => (q.patent_id, q.abstract_sha1))).Nodup) :
    (∀ s ∈ (sync_to_airtable extExists extCreateOk patent_ids db).2.pushed,
      s ∈ db.scores ∧ (s.relevance = "High" ∨ s.relevance = "Medium") ∧
      patent_ids.contains s.patent_id = true) ∧
    (∀ s ∈ db.scores, patent_ids.contains s.patent_id = true →
      s.relevance = "Low" →
      ∀ q ∈ (sync_to_airtable extExists extCreateOk patent_ids db).1.queue,
        ¬(q.patent_id = s.patent_id ∧ q.abstract_sha1 = s.abstract_sha1)) ∧
    (sync_to_airtable extExists extCreateOk patent_ids
        (sync_to_airtable extExists extCreateOk patent_ids db).1).1.queue =
      (sync_to_airtable extExists extCreateOk patent_ids db).1.queue ∧
    (sync_to_airtable extExists extCreateOk patent_ids db).1.scores =
      db.scores := by
  by_cases hemp : patent_ids.isEmpty = true
  · have hids : patent_ids = [] := List.isEmpty_iff.mp hemp
    subst hids
    have heq : sync_to_airtable extExists extCreateOk [] db =
        (db, ⟨0, 0, 0, 0, []⟩) := rfl
    refine ⟨?_, ?_, ?_, ?_⟩
    · intro s hs
      rw [heq] at hs
      cases hs
    · intro s _ hc _
      simp at hc
    · rfl
    · rfl
  · have hne : patent_ids.isEmpty = false := by simpa using hemp
    obtain ⟨hq, hsc, hpu⟩ := sync_components extExists extCreateOk
      patent_ids db hne
    have huniq := nodup_key_countP db.queue hnodup
    refine ⟨?_, ?_, ?_, hsc⟩
    · intro s hs
      rw [hpu] at hs
      rcases syncPush_foldl_pushed _ _ _ _ s hs with h | h
      · cases h
      · have hf := List.mem_filter.mp h
        refine ⟨hf.1, ?_, ?_⟩
        · have := hf.2
          simp only [Bool.and_eq_true, Bool.or_eq_true, beq_iff_eq] at this
          exact this.2
        · have := hf.2
          simp only [Bool.and_eq_true] at this
          exact this.1
    · intro s hmem hc hlow q hq2 hkey
      rw [hq] at hq2
      have hsel : s ∈ db.scores.filter (fun s =>
          patent_ids.contains s.patent_id && s.relevance == "Low") := by
        refine List.mem_filter.mpr ⟨hmem, ?_⟩
        rw [Bool.and_eq_true]
        exact ⟨hc, by simp [hlow]⟩
      have := syncRemove_foldl_clears _ db.queue (db.queue, 0)
        (List.Sublist.refl _) huniq s hsel q hq2
      apply this
      simp [hkey.1, hkey.2]
    · have hsc2 : (sync_to_airtable extExists extCreateOk patent_ids db).1.scores
          = db.scores := hsc
      obtain ⟨hq2, _, _⟩ := sync_components extExists extCreateOk patent_ids
        (sync_to_airtable extExists extCreateOk patent_ids db).1 hne
      rw [hq2, hsc2]
      have hclear : ∀ s ∈ db.scores.filter (fun s =>
          patent_ids.contains s.patent_id && s.relevance == "Low"),
          ∀ x ∈ (sync_to_airtable extExists extCreateOk patent_ids db).1.queue,
          ¬(x.patent_id == s.patent_id &&
            x.abstract_sha1 == s.abstract_sha1) = true := by
        intro s hs x hx
        rw [hq] at hx
        exact syncRemove_foldl_clears _ db.queue (db.queue, 0)
          (List.Sublist.refl _) huniq s hs x hx
      rw [hq]
      have := syncRemove_foldl_frozen
        (db.scores.filter (fun s =>
          patent_ids.contains s.patent_id && s.relevance == "Low"))
        ((db.scores.filter (fun s =>
          patent_ids.contains s.patent_id && s.relevance == "Low")).foldl
            syncRemoveStep (db.queue, 0)).1 0
        (by
          intro s hs x hx
          exact hclear s hs x (by rwa [hq]))
      rw [this]

/-- C6, witness: one Low and one High Score row, a lingering QueueItem for
the Low one — the pushed High row satisfies the gate conditions, a second
sync leaves the queue unchanged, and the scores table is untouched. -/
theorem claim6_witness :
    (highScoreRow ∈ dbSync.scores ∧
      (highScoreRow.relevance = "High" ∨ highScoreRow.relevance = "Medium") ∧
      (["P1", "P3"] : List String).contains highScoreRow.patent_id = true) ∧
    (sync_to_airtable (fun _ => false) (fun _ => true) ["P1", "P3"]
      (sync_to_airtable (fun _ => false) (fun _ => true) ["P1", "P3"]
        dbSync).1).1.queue =
      (sync_to_airtable (fun _ => false) (fun _ => true) ["P1", "P3"]
        dbSync).1.queue ∧
    (sync_to_airtable (fun _ => false) (fun _ => true) ["P1", "P3"]
      dbSync).1.scores = dbSync.scores := by
  have h := claim6 (fun _ => false) (fun _ => true) ["P1", "P3"] dbSync
    (by decide)
  exact ⟨h.1 highScoreRow (by decide), h.2.2.1, h.2.2.2⟩

/-- C10, witness: a concrete always-failing strategy on a concrete item. -/
theorem claim10_witness :
    (processItem (fun _ _ => none) 2 "keyword" 0 (dbLow, ⟨0, 0, 0, 0⟩)
      lowItem).1.scores = dbLow.scores ∧
    (processItem (fun _ _ => none) 2 "keyword" 0 (dbLow, ⟨0, 0, 0, 0⟩)
      lowItem).2 = { processed := 0, scored := 0, filtered := 0, errors := 1 } := by
  have h := claim10 (fun _ _ => none) 2 "keyword" 0 dbLow ⟨0, 0, 0, 0⟩
    lowItem [] (dbLow, ⟨0, 0, 0, 0⟩) rfl
  exact ⟨h.1, h.2.2.1⟩

end PatentScoring
